import Mathlib

/-!
Verification of the Power_Outages_Ukraine pipeline scripts
(`scripts/clean_data.py` and `scripts/build_maps.py`).

Shallow embedding conventions:

* CSV rows are records of `String` fields.  `csv.DictReader` always yields
  strings; a missing column is read through `row.get(..., "")` or
  `(row.get(...) or "")`, both of which the scripts immediately `.strip()`,
  so a missing column is observationally equal to the empty string and is
  modelled by `""`.
* Python `str.strip()` is modelled by `pyStrip` (whitespace at both ends).
* `datetime.strptime(s, "%d.%m.%Y")` is modelled by `strptime_dmy`,
  following CPython's `_strptime` regexes: one or two digits for `%d`
  (value 1..31) and `%m` (value 1..12), exactly four digits for `%Y`
  (year 1..9999), literal dots, the whole string consumed, and calendar
  validation of the day against the month/year (leap rules included).
  `datetime.strftime("%d.%m.%Y")` is modelled by `strftime_dmy`, with
  zero-padded fields as in the `datetime` documentation table.
* Numbers are modelled by `ℚ`.  `float(text)` on a string is modelled by
  `pyFloatChars` implementing the finite-literal grammar
  `sign? (digits [. digits?] | . digits) ([eE] sign? digits)?` with exact
  rational semantics.  The `inf`/`nan` spellings, underscore digit
  separators and non-ASCII digits accepted by CPython, and the binary
  rounding of IEEE doubles, are outside the rational model; no claim below
  depends on them.  CPython's `float()` never raises `OverflowError` on
  strings (overflow yields `inf`), so the modelled function is total.
* The numeric cells of the clean CSV are modelled by their `parse_float`
  image (`Option ℚ`): the writer emits either `""` (modelled `none`) or
  `str(mean)` where `repr`/`float` round-tripping of Python floats is
  exact (modelled `some q`), and the loader only ever looks at such a cell
  through `parse_float`.
* Python `dict`s are modelled as association lists with
  replace-at-first-occurrence insertion (which preserves both lookup
  semantics and insertion order of keys); Python `set`s whose only
  consumption is `sorted(...)` are modelled as duplicate-free lists.
* `sorted(xs, key=...)` is modelled by `List.insertionSort` with the
  corresponding order; every list sorted by the scripts has pairwise
  distinct sort keys, so any comparison sort produces the same list.
-/

set_option maxRecDepth 4000

/-- Python `str.strip()` whitespace test (ASCII whitespace). -/
def isPySpace (c : Char) : Bool :=
  c = ' ' || c = '\t' || c = '\n' || c = '\x0d' || c = '\x0b' || c = '\x0c'

/-- Strip `isPySpace` characters from both ends of a character list. -/
def pyStripList (l : List Char) : List Char :=
  ((l.dropWhile isPySpace).reverse.dropWhile isPySpace).reverse

/-- Model of Python `str.strip()`. -/
def pyStrip (s : String) : String :=
  String.mk (pyStripList s.data)

/-- ASCII decimal digit test (code points 48–57). -/
def isDigitChar (c : Char) : Bool :=
  48 ≤ c.toNat && c.toNat ≤ 57

/-- Numeric value of an ASCII digit character. -/
def digitVal (c : Char) : Nat :=
  c.toNat - '0'.toNat

/-- Numeric value of a digit string (most significant first). -/
def digitsVal (l : List Char) : Nat :=
  l.foldl (fun a c => 10 * a + digitVal c) 0

/-- The ASCII digit character for `n < 10`. -/
def digitChar (n : Nat) : Char :=
  Char.ofNat (48 + n)

/-- Decimal digit characters of `n`, with explicit structural fuel. -/
def natDigitsCore : Nat → Nat → List Char
  | 0, _ => []
  | fuel + 1, n =>
    if n < 10 then [digitChar n]
    else natDigitsCore fuel (n / 10) ++ [digitChar (n % 10)]

/-- Decimal digit characters of a natural number (no leading zeros). -/
def natDigits (n : Nat) : List Char :=
  natDigitsCore (n + 1) n

/-- Left-pad a digit list with `'0'` up to width `k` (C `%0kd`). -/
def padZeros (k : Nat) (ds : List Char) : List Char :=
  List.replicate (k - ds.length) '0' ++ ds

/-- Lexicographic (code-point) comparison of character lists, as Python
compares strings. -/
def charsLe : List Char → List Char → Bool
  | [], _ => true
  | _ :: _, [] => false
  | a :: as, b :: bs => if a = b then charsLe as bs else decide (a.toNat < b.toNat)

/-- Python string `<=` (lexicographic by code point). -/
def strLe (s t : String) : Prop :=
  charsLe s.data t.data = true

instance : DecidableRel strLe := fun s t => by
  unfold strLe; infer_instance

/-- A calendar date as handled by `datetime`: the scripts only use the
day/month/year components. -/
structure PyDate where
  day : Nat
  month : Nat
  year : Nat
deriving DecidableEq

/-- Gregorian leap-year rule used by `datetime`. -/
def isLeap (y : Nat) : Bool :=
  y % 4 = 0 && (y % 100 ≠ 0 || y % 400 = 0)

/-- Number of days in a month, as validated by `datetime`. -/
def daysInMonth (m y : Nat) : Nat :=
  if m = 2 then (if isLeap y then 29 else 28)
  else if m = 4 || m = 6 || m = 9 || m = 11 then 30
  else 31

/-- The ranges `datetime.strptime` can actually produce for `%d.%m.%Y`. -/
def PyDate.Valid (d : PyDate) : Prop :=
  1 ≤ d.day ∧ d.day ≤ daysInMonth d.month d.year ∧
  1 ≤ d.month ∧ d.month ≤ 12 ∧ 1 ≤ d.year ∧ d.year ≤ 9999

instance (d : PyDate) : Decidable d.Valid := by
  unfold PyDate.Valid; infer_instance

/-- `datetime` comparison (`<`) on dates: lexicographic on
(year, month, day). -/
def PyDate.ltB (a b : PyDate) : Bool :=
  decide (a.year < b.year) ||
    (decide (a.year = b.year) &&
      (decide (a.month < b.month) ||
        (decide (a.month = b.month) && decide (a.day < b.day))))

/-- `datetime` comparison (`<=`) on dates. -/
def PyDate.le (a b : PyDate) : Prop :=
  a.year < b.year ∨
    (a.year = b.year ∧
      (a.month < b.month ∨ (a.month = b.month ∧ a.day ≤ b.day)))

instance : DecidableRel PyDate.le := fun a b => by
  unfold PyDate.le; infer_instance

instance : IsTotal PyDate PyDate.le :=
  ⟨by intro a b; unfold PyDate.le; omega⟩

instance : IsTrans PyDate PyDate.le :=
  ⟨by intro a b c; unfold PyDate.le; omega⟩

/-- Construct the date provided all `strptime` checks pass: component
lengths as in CPython's `_strptime` regexes, value ranges, calendar
validation. -/
def mkStrptimeDate (a b c : List Char) : Option PyDate :=
  let day := digitsVal a
  let mon := digitsVal b
  let yr := digitsVal c
  if 1 ≤ a.length ∧ a.length ≤ 2 ∧ 1 ≤ b.length ∧ b.length ≤ 2 ∧
      c.length = 4 ∧ 1 ≤ day ∧ day ≤ 31 ∧ 1 ≤ mon ∧ mon ≤ 12 ∧
      1 ≤ yr ∧ day ≤ daysInMonth mon yr then
    some ⟨day, mon, yr⟩
  else none

/-- Model of `datetime.strptime(s, "%d.%m.%Y")` on the character list of
`s`: digit run, literal dot, digit run, literal dot, digit run, end of
input, then `mkStrptimeDate` validation. -/
def strptimeListDmy (l : List Char) : Option PyDate :=
  match l.span isDigitChar with
  | (a, '.' :: r2) =>
    match r2.span isDigitChar with
    | (b, '.' :: r4) =>
      match r4.span isDigitChar with
      | (c, []) => mkStrptimeDate a b c
      | _ => none
    | _ => none
  | _ => none

/-- Model of `datetime.strptime(s, "%d.%m.%Y")` (raises → `none`). -/
def strptime_dmy (s : String) : Option PyDate :=
  strptimeListDmy s.data

/-- Model of `date.strftime("%d.%m.%Y")`: zero-padded day, month, year. -/
def strftime_dmy (d : PyDate) : String :=
  String.mk (padZeros 2 (natDigits d.day) ++ '.' ::
    (padZeros 2 (natDigits d.month) ++ '.' :: padZeros 4 (natDigits d.year)))

example : strptime_dmy (String.mk ['0', '1', '.', '0', '2', '.', '2', '0', '2', '6']) =
    some ⟨1, 2, 2026⟩ := by decide

example : strptime_dmy (String.mk ['3', '1', '.', '0', '2', '.', '2', '0', '2', '5']) =
    none := by decide

example : strftime_dmy ⟨1, 2, 2026⟩ =
    String.mk ['0', '1', '.', '0', '2', '.', '2', '0', '2', '6'] := by decide

/-- Sign and exponent application for the float grammar: the decimal value
`sgn * m * 10^e` with `e` signed. -/
def applyExp (sgn : Int) (m : ℚ) (esgn : Int) (e : Nat) : ℚ :=
  let base := if esgn < 0 then m / (10 : ℚ) ^ e else m * (10 : ℚ) ^ e
  if sgn < 0 then -base else base

/-- Parse the optional `[eE] sign? digits` suffix and finish the literal;
any других trailing characters make the whole conversion fail. -/
def parseExpPart (sgn : Int) (m : ℚ) : List Char → Option ℚ
  | [] => some (applyExp sgn m 1 0)
  | c :: r =>
    if c = 'e' ∨ c = 'E' then
      let q := match r with
        | '+' :: r2 => ((1 : Int), r2)
        | '-' :: r2 => ((-1 : Int), r2)
        | r2 => ((1 : Int), r2)
      let p := q.2.span isDigitChar
      if p.1 ≠ [] ∧ p.2 = [] then
        some (applyExp sgn m q.1 (digitsVal p.1))
      else none
    else none

/-- Mantissa and suffix after the optional sign: `digits [. digits?]` or
`. digits`. -/
def parseMantissa (sgn : Int) (l : List Char) : Option ℚ :=
  let p1 := l.span isDigitChar
  match p1.2 with
  | '.' :: r2 =>
    let p2 := r2.span isDigitChar
    if p1.1 = [] ∧ p2.1 = [] then none
    else
      parseExpPart sgn
        ((digitsVal (p1.1 ++ p2.1) : ℚ) / (10 : ℚ) ^ p2.1.length) p2.2
  | rest =>
    if p1.1 = [] then none
    else parseExpPart sgn (digitsVal p1.1 : ℚ) rest

/-- Model of CPython `float(s)` on finite decimal/scientific literals
(see the header for the model's scope). -/
def pyFloatChars (l : List Char) : Option ℚ :=
  match l with
  | [] => none
  | c :: r =>
    if c = '+' then parseMantissa 1 r
    else if c = '-' then parseMantissa (-1) r
    else parseMantissa 1 (c :: r)

namespace clean_data

/-- `scripts/clean_data.py`, `parse_float`: strip, empty → `None`, replace
`,` by `.`, convert with `float` (a `ValueError` → `None`).  The `None`
input case of the source corresponds to the empty string here (see the
header on missing CSV columns). -/
def parse_float (value : String) : Option ℚ :=
  let text := pyStrip value
  if text = "" then none
  else pyFloatChars (text.data.map fun c => if c = ',' then '.' else c)

end clean_data

namespace build_maps

/-- `scripts/build_maps.py`, `parse_float`: textually identical to the one
in `scripts/clean_data.py`. -/
def parse_float (value : String) : Option ℚ :=
  let text := pyStrip value
  if text = "" then none
  else pyFloatChars (text.data.map fun c => if c = ',' then '.' else c)

end build_maps

example : clean_data.parse_float (String.mk ['4', ',', '5']) = some (9 / 2) := by
  with_unfolding_all decide
example : clean_data.parse_float (String.mk [' ', '6', '.', '0', ' ']) = some 6 := by
  with_unfolding_all decide
example : clean_data.parse_float (String.mk ['a', 'b']) = none := by
  with_unfolding_all decide
example : clean_data.parse_float (String.mk []) = none := by
  with_unfolding_all decide
example : clean_data.parse_float (String.mk ['1', 'e', '3']) = some 1000 := by
  with_unfolding_all decide
example : clean_data.parse_float (String.mk ['-', '2', '.', '5', 'E', '-', '1']) =
    some (-(1 / 4)) := by with_unfolding_all decide

/-- `statistics.mean` on a nonempty list, in exact rational arithmetic. -/
def pyMean (l : List ℚ) : ℚ :=
  l.sum / (l.length : ℚ)

/-- First-match lookup in an association list (Python `dict` access). -/
def lookupA {K V : Type} [DecidableEq K] (k : K) : List (K × V) → Option V
  | [] => none
  | (k1, v) :: t => if k = k1 then some v else lookupA k t

/-- Python `dict` assignment `d[k] = v`: replace the first binding of `k`,
or append a new binding at the end. -/
def insertA {K V : Type} [DecidableEq K] (k : K) (v : V) :
    List (K × V) → List (K × V)
  | [] => [(k, v)]
  | (k1, v1) :: t =>
    if k = k1 then (k, v) :: t else (k1, v1) :: insertA k v t

/-- Python `d.setdefault(k, dflt)` followed by an update of `d[k]`. -/
def updateA {K V : Type} [DecidableEq K] (k : K) (f : V → V) (dflt : V) :
    List (K × V) → List (K × V)
  | [] => [(k, f dflt)]
  | (k1, v1) :: t =>
    if k = k1 then (k, f v1) :: t else (k1, v1) :: updateA k f dflt t

/-- Distinct elements in first-occurrence order: the key set built by
Python `dict`/`set` insertion. -/
def pyDedup {α : Type} [DecidableEq α] (l : List α) : List α :=
  l.foldl (fun acc x => if x ∈ acc then acc else acc ++ [x]) []

/-- One data row of the raw survey CSV, restricted to the five columns the
cleaner reads (header names in `scripts/clean_data.py`); each field is the
raw cell text. -/
structure RawRow where
  date : String
  oblast : String
  subqueue : String
  scheduled : String
  actual : String
deriving DecidableEq

/-- One data row of the region-ID mapping CSV (columns
`What Oblast are you reporting from?` and `GID_1`). -/
structure RegionRow where
  oblast : String
  gid : String
deriving DecidableEq

/-- The per-group accumulator built by `load_raw_data`:
`{"scheduled": [], "actual": [], "subqueues": set()}`.  The subqueue set is
modelled as a duplicate-free list in insertion order. -/
structure AggEntry where
  scheduled : List ℚ
  actual : List ℚ
  subqueues : List String
deriving DecidableEq

/-- The empty accumulator used by `setdefault`. -/
def emptyAgg : AggEntry :=
  ⟨[], [], []⟩

/-- Python `set.add`: append if not already present. -/
def addIfAbsent (x : String) (l : List String) : List String :=
  if x ∈ l then l else l ++ [x]

/-- One data row of the clean CSV
(`Date, Oblast, GID_1, Scheduled_outages, Actual_outages, Subqueues`).
The numeric cells are modelled by their `parse_float` image (see the file
header); `none` is the empty cell. -/
structure CleanRow where
  date : String
  oblast : String
  gid : String
  scheduled : Option ℚ
  actual : Option ℚ
  subqueues : String
deriving DecidableEq

namespace clean_data

/-- The body of the row loop of `load_raw_data` applied to one raw CSV
row: strip and require date and oblast, parse and threshold-filter the
date, then append this row's parsed metrics and subqueue under the key
`(date_obj.strftime(RAW_DATE_FMT), oblast)`. -/
def loadStep (start : PyDate) (acc : List ((String × String) × AggEntry))
    (row : RawRow) : List ((String × String) × AggEntry) :=
  let raw_date := pyStrip row.date
  let oblast := pyStrip row.oblast
  if raw_date = "" ∨ oblast = "" then acc
  else
    match strptime_dmy raw_date with
    | none => acc
    | some date_obj =>
      if PyDate.ltB date_obj start then acc
      else
        let subqueue := pyStrip row.subqueue
        let scheduled := parse_float row.scheduled
        let actual := parse_float row.actual
        updateA (strftime_dmy date_obj, oblast)
          (fun e =>
            { scheduled := e.scheduled ++ scheduled.toList
              actual := e.actual ++ actual.toList
              subqueues :=
                if subqueue = "" then e.subqueues
                else addIfAbsent subqueue e.subqueues })
          emptyAgg acc

/-- `scripts/clean_data.py`, `load_raw_data`: fold the row loop over the
raw CSV rows, starting from the empty dict. -/
def load_raw_data (start : PyDate) (rows : List RawRow) :
    List ((String × String) × AggEntry) :=
  rows.foldl (loadStep start) []

/-- `scripts/clean_data.py`, `load_region_ids`: oblast name → GID mapping,
skipping rows with an empty stripped oblast. -/
def load_region_ids (rows : List RegionRow) : List (String × String) :=
  rows.foldl
    (fun acc row =>
      let oblast := pyStrip row.oblast
      let gid := pyStrip row.gid
      if oblast = "" then acc else insertA oblast gid acc)
    []

/-- The key under which a raw row contributes to the aggregate, if any:
the guard structure of `load_raw_data`'s loop.  `none` means the row is
skipped (missing field, unparseable date, or date before the
threshold). -/
def rowKey (start : PyDate) (row : RawRow) : Option (String × String) :=
  let raw_date := pyStrip row.date
  let oblast := pyStrip row.oblast
  if raw_date = "" ∨ oblast = "" then none
  else
    match strptime_dmy raw_date with
    | none => none
    | some date_obj =>
      if PyDate.ltB date_obj start then none
      else some (strftime_dmy date_obj, oblast)

/-- Sort key order for `sorted(date_strings, key=...strptime...)`: compare
the parsed dates.  (The script applies it only to strings on which
`strptime` succeeds; otherwise the script would raise, which `clean_dates`
models as `none`.) -/
def dateKeyLe (d1 d2 : String) : Prop :=
  PyDate.le ((strptime_dmy d1).getD ⟨0, 0, 0⟩) ((strptime_dmy d2).getD ⟨0, 0, 0⟩)

instance : DecidableRel dateKeyLe := fun d1 d2 => by
  unfold dateKeyLe; infer_instance

instance : IsTotal String dateKeyLe :=
  ⟨by intro a b; unfold dateKeyLe PyDate.le; omega⟩

instance : IsTrans String dateKeyLe :=
  ⟨by intro a b c; unfold dateKeyLe PyDate.le; omega⟩

/-- Lines 122–125 of `scripts/clean_data.py`: the distinct date strings of
the aggregate keys, sorted by parsed date.  `datetime.strptime` raising
inside the sort key (possible only for pre-1000 years, whose `%Y`
rendering is shorter than four digits) is modelled as `none`. -/
def clean_dates (agg : List ((String × String) × AggEntry)) :
    Option (List String) :=
  let ds := pyDedup (agg.map fun kv => kv.1.1)
  if ds.all (fun d => (strptime_dmy d).isSome) then
    some (List.insertionSort dateKeyLe ds)
  else none

/-- The clean CSV data row written for one `(date, oblast)` pair
(lines 140–160 of `scripts/clean_data.py`). -/
def makeRow (region_ids : List (String × String))
    (agg : List ((String × String) × AggEntry)) (date oblast : String) :
    CleanRow :=
  let values := (lookupA (date, oblast) agg).getD emptyAgg
  { date := date
    oblast := oblast
    gid := (lookupA oblast region_ids).getD ""
    scheduled :=
      if values.scheduled = [] then none else some (pyMean values.scheduled)
    actual :=
      if values.actual = [] then none else some (pyMean values.actual)
    subqueues :=
      String.intercalate (", ") (List.insertionSort strLe values.subqueues) }

/-- `scripts/clean_data.py`, `main` (data rows only; the fixed header row
is written before them): load the region mapping and the aggregate, sort
dates and oblasts, and emit one row per (date, oblast) pair.  `none`
models the run aborting with an uncaught exception in the sort key. -/
def main_rows (region_rows : List RegionRow) (raw_rows : List RawRow)
    (start : PyDate) : Option (List CleanRow) :=
  match clean_dates (load_raw_data start raw_rows) with
  | none => none
  | some dates =>
    some (dates.flatMap fun date =>
      (List.insertionSort strLe
          ((load_region_ids region_rows).map fun kv => kv.1)).map
        fun oblast =>
          makeRow (load_region_ids region_rows) (load_raw_data start raw_rows)
            date oblast)

end clean_data

/-- The per-(date, GID) record built by `load_clean_data`
(`{"scheduled": ..., "actual": ..., "subqueues": ...}`). -/
structure DayEntry where
  scheduled : Option ℚ
  actual : Option ℚ
  subqueues : String
deriving DecidableEq

namespace build_maps

/-- The body of the row loop of `load_clean_data` applied to one clean CSV
row: strip and require the date and GID cells, index the row's values
under `(date, gid)` (last row wins), then try to parse the date for the
navigable date list — a parse failure only skips the append. -/
def loadStep
    (acc : List (String × List (String × DayEntry)) × List PyDate)
    (row : CleanRow) :
    List (String × List (String × DayEntry)) × List PyDate :=
  let date := pyStrip row.date
  let gid := pyStrip row.gid
  if date = "" ∨ gid = "" then acc
  else
    let scheduled := row.scheduled
    let actual := row.actual
    let subqueues := pyStrip row.subqueues
    let data1 :=
      updateA date (insertA gid ⟨scheduled, actual, subqueues⟩) [] acc.1
    match strptime_dmy date with
    | some d => (data1, acc.2 ++ [d])
    | none => (data1, acc.2)

/-- `scripts/build_maps.py`, `load_clean_data`: fold the row loop, then
return the sorted distinct parsed dates rendered back through `strftime`,
together with the nested keyed structure. -/
def load_clean_data (rows : List CleanRow) :
    List String × List (String × List (String × DayEntry)) :=
  let r := rows.foldl loadStep ([], [])
  let unique_dates := List.insertionSort PyDate.le (pyDedup r.2)
  (unique_dates.map strftime_dmy, r.1)

/-- Lookup in the nested keyed structure: `data[date][gid]`. -/
def lookup2 (data : List (String × List (String × DayEntry)))
    (date gid : String) : Option DayEntry :=
  (lookupA date data).bind fun inner => lookupA gid inner

/-- JavaScript `Math.round`: round half toward positive infinity. -/
def jsRound (q : ℚ) : ℤ :=
  ⌊q + 1 / 2⌋

/-- The if-chain of the embedded `getColor` on the rounded value
(lines 379–385 of `scripts/build_maps.py`), returning the palette fill
color. -/
def colorOfRounded (r : ℤ) : String :=
  if r ≤ 0 then "#2f9e44"
  else if 1 ≤ r ∧ r ≤ 4 then "#f2e86d"
  else if 5 ≤ r ∧ r ≤ 8 then "#f5c76b"
  else if 9 ≤ r ∧ r ≤ 12 then "#f19a6b"
  else if 13 ≤ r ∧ r ≤ 16 then "#e76b5a"
  else if 17 ≤ r ∧ r ≤ 20 then "#c7433c"
  else "#8f1d1d"

/-- The embedded `getColor(value)` of the generated document: an absent
value (JavaScript `null`/`undefined`/`""`, i.e. a missing datum) is the
"no data" gray, otherwise bucket the `Math.round`ed value. -/
def getColor : Option ℚ → String
  | none => "#cfcfcf"
  | some v => colorOfRounded (jsRound v)

end build_maps

/-- Spec §8/§4.1 ("valid filtered dates found in the raw data"): the
distinct normalized date strings of raw rows that pass all of the
cleaner's row filters, in first-occurrence order. -/
def validDates (start : PyDate) (rows : List RawRow) : List String :=
  pyDedup ((rows.filterMap (clean_data.rowKey start)).map fun k => k.1)

/-- Spec §2/§4.1 ("regions known to the Region Resolver"): the distinct
region display names of the loaded mapping. -/
def knownRegions (region_rows : List RegionRow) : List String :=
  (clean_data.load_region_ids region_rows).map fun kv => kv.1

/-- The present, well-formed scheduled-hours values of the raw rows in the
(date, oblast) group — the values the spec's mean ranges over. -/
def groupScheduled (start : PyDate) (rows : List RawRow)
    (date oblast : String) : List ℚ :=
  (rows.filter fun r => clean_data.rowKey start r = some (date, oblast)).filterMap
    fun r => clean_data.parse_float r.scheduled

/-- The present, well-formed actual-hours values of the raw rows in the
(date, oblast) group. -/
def groupActual (start : PyDate) (rows : List RawRow)
    (date oblast : String) : List ℚ :=
  (rows.filter fun r => clean_data.rowKey start r = some (date, oblast)).filterMap
    fun r => clean_data.parse_float r.actual

/-- Modelled from the spec's words (§4.1): "decimal-comma or decimal-point
numeric notation" — an optional sign, then digits with at most one
fractional separator, a comma or a point, and at least one digit; no
exponent.  Used only to compare the spec's characterisation of
`parse_float` with the code's. -/
def decimalCore (l : List Char) : Bool :=
  let p1 := l.span isDigitChar
  match p1.2 with
  | [] => decide (p1.1 ≠ [])
  | c :: r2 =>
    (c = ',' || c = '.') &&
      (let p2 := r2.span isDigitChar
       decide (p2.2 = []) && (decide (p1.1 ≠ []) || decide (p2.1 ≠ [])))

/-- Modelled from the spec's words (§4.1): decimal numeric notation with
an optional leading sign. -/
def isDecimalNumeric (s : String) : Bool :=
  match s.data with
  | '+' :: r => decimalCore r
  | '-' :: r => decimalCore r
  | r => decimalCore r

/-- Modelled from the spec's words (§4.3): the seven fixed legend buckets
(0; 1–4; 5–8; 9–12; 13–16; 17–20; 21–24), boundaries inclusive on both
ends, plus the "no data" gray outside the 0–24 hour domain. -/
def specBucketColor (n : ℤ) : String :=
  if n = 0 then "#2f9e44"
  else if 1 ≤ n ∧ n ≤ 4 then "#f2e86d"
  else if 5 ≤ n ∧ n ≤ 8 then "#f5c76b"
  else if 9 ≤ n ∧ n ≤ 12 then "#f19a6b"
  else if 13 ≤ n ∧ n ≤ 16 then "#e76b5a"
  else if 17 ≤ n ∧ n ≤ 20 then "#c7433c"
  else if 21 ≤ n ∧ n ≤ 24 then "#8f1d1d"
  else "#cfcfcf"

/-- A date cell is in normalized form: if it parses, rendering the parsed
date back through `strftime` reproduces it exactly.  All dates the Clean
Dataset Writer emits (four-digit years) have this property. -/
def normalizedDate (s : String) : Prop :=
  match strptime_dmy s with
  | some p => strftime_dmy p = s
  | none => True

instance (s : String) : Decidable (normalizedDate s) := by
  unfold normalizedDate
  cases strptime_dmy s with
  | none => exact inferInstance
  | some p => exact inferInstance

/-- Calendar order on date strings: both parse and the first parsed date
is strictly earlier. -/
def calendarBefore (s t : String) : Prop :=
  ∃ p q, strptime_dmy s = some p ∧ strptime_dmy t = some q ∧
    PyDate.ltB p q = true

/-- The row order the spec requires of the clean dataset: strictly
ascending calendar date, and lexicographically ascending region name
within one date. -/
def rowOrdered (a b : CleanRow) : Prop :=
  calendarBefore a.date b.date ∨ (a.date = b.date ∧ strLe a.oblast b.oblast)

section AssocLemmas

variable {K V : Type} [DecidableEq K]

theorem lookupA_updateA_self (k : K) (f : V → V) (d : V) (l : List (K × V)) :
    lookupA k (updateA k f d l) = some (f ((lookupA k l).getD d)) := by
  induction l with
  | nil => simp [lookupA, updateA]
  | cons h t ih =>
    obtain ⟨k1, v1⟩ := h
    by_cases hk : k = k1
    · subst hk; simp [lookupA, updateA]
    · simp [lookupA, updateA, hk, ih]

theorem lookupA_updateA_ne {k k1 : K} (hne : k1 ≠ k) (f : V → V) (d : V)
    (l : List (K × V)) : lookupA k1 (updateA k f d l) = lookupA k1 l := by
  induction l with
  | nil => simp [lookupA, updateA, hne]
  | cons h t ih =>
    obtain ⟨k2, v2⟩ := h
    by_cases hk : k = k2
    · subst hk; simp [lookupA, updateA, hne, ih]
    · simp only [updateA, if_neg hk, lookupA]
      by_cases hk1 : k1 = k2 <;> simp [hk1, ih]

theorem lookupA_insertA_self (k : K) (v : V) (l : List (K × V)) :
    lookupA k (insertA k v l) = some v := by
  induction l with
  | nil => simp [lookupA, insertA]
  | cons h t ih =>
    obtain ⟨k1, v1⟩ := h
    by_cases hk : k = k1
    · subst hk; simp [lookupA, insertA]
    · simp [lookupA, insertA, hk, ih]

theorem lookupA_insertA_ne {k k1 : K} (hne : k1 ≠ k) (v : V)
    (l : List (K × V)) : lookupA k1 (insertA k v l) = lookupA k1 l := by
  induction l with
  | nil => simp [lookupA, insertA, hne]
  | cons h t ih =>
    obtain ⟨k2, v2⟩ := h
    by_cases hk : k = k2
    · subst hk; simp [lookupA, insertA, hne, ih]
    · simp only [insertA, if_neg hk, lookupA]
      by_cases hk1 : k1 = k2 <;> simp [hk1, ih]

theorem map_fst_updateA (k : K) (f : V → V) (d : V) (l : List (K × V)) :
    (updateA k f d l).map Prod.fst =
      if k ∈ l.map Prod.fst then l.map Prod.fst else l.map Prod.fst ++ [k] := by
  induction l with
  | nil => simp [updateA]
  | cons h t ih =>
    obtain ⟨k1, v1⟩ := h
    by_cases hk : k = k1
    · subst hk; simp [updateA]
    · simp only [updateA, if_neg hk, List.map_cons, List.mem_cons, ih]
      have : ¬ k = k1 := hk
      by_cases hm : k ∈ t.map Prod.fst <;> simp [hm, this]

theorem map_fst_insertA (k : K) (v : V) (l : List (K × V)) :
    (insertA k v l).map Prod.fst =
      if k ∈ l.map Prod.fst then l.map Prod.fst else l.map Prod.fst ++ [k] := by
  induction l with
  | nil => simp [insertA]
  | cons h t ih =>
    obtain ⟨k1, v1⟩ := h
    by_cases hk : k = k1
    · subst hk; simp [insertA]
    · simp only [insertA, if_neg hk, List.map_cons, List.mem_cons, ih]
      have : ¬ k = k1 := hk
      by_cases hm : k ∈ t.map Prod.fst <;> simp [hm, this]

theorem lookupA_isSome_iff (k : K) (l : List (K × V)) :
    (lookupA k l).isSome = true ↔ k ∈ l.map Prod.fst := by
  induction l with
  | nil => simp [lookupA]
  | cons h t ih =>
    obtain ⟨k1, v1⟩ := h
    by_cases hk : k = k1 <;> simp [lookupA, hk, ih]

theorem lookupA_eq_none_iff (k : K) (l : List (K × V)) :
    lookupA k l = none ↔ k ∉ l.map Prod.fst := by
  rw [← lookupA_isSome_iff]
  cases lookupA k l <;> simp

end AssocLemmas

section PyDedupLemmas

variable {α β : Type} [DecidableEq α] [DecidableEq β]

/-- One insertion step of `pyDedup`. -/
def dedupStep (acc : List α) (x : α) : List α :=
  if x ∈ acc then acc else acc ++ [x]

theorem pyDedup_eq_foldl (l : List α) : pyDedup l = l.foldl dedupStep [] := by
  rfl

theorem pyDedup_append_singleton (l : List α) (x : α) :
    pyDedup (l ++ [x]) =
      if x ∈ pyDedup l then pyDedup l else pyDedup l ++ [x] := by
  simp [pyDedup_eq_foldl, List.foldl_append, dedupStep]

theorem mem_pyDedup {l : List α} {x : α} : x ∈ pyDedup l ↔ x ∈ l := by
  induction l using List.reverseRecOn with
  | nil => simp [pyDedup]
  | append_singleton t y ih =>
    rw [pyDedup_append_singleton]
    by_cases hm : y ∈ pyDedup t
    · simp only [if_pos hm, ih, List.mem_append, List.mem_singleton]
      constructor
      · exact fun h => Or.inl h
      · rintro (h | rfl)
        · exact h
        · exact ih.mp hm
    · simp [hm, ih]

theorem nodup_pyDedup (l : List α) : (pyDedup l).Nodup := by
  induction l using List.reverseRecOn with
  | nil => simp [pyDedup]
  | append_singleton t y ih =>
    rw [pyDedup_append_singleton]
    by_cases hm : y ∈ pyDedup t
    · simpa [hm] using ih
    · simp only [if_neg hm]
      rw [List.nodup_append]
      exact ⟨ih, List.nodup_singleton y, by simpa using hm⟩

theorem pyDedup_map_pyDedup (f : α → β) (l : List α) :
    pyDedup ((pyDedup l).map f) = pyDedup (l.map f) := by
  induction l using List.reverseRecOn with
  | nil => simp [pyDedup]
  | append_singleton t y ih =>
    rw [pyDedup_append_singleton, List.map_append]
    by_cases hm : y ∈ pyDedup t
    · have hf : f y ∈ t.map f := List.mem_map_of_mem f (mem_pyDedup.mp hm)
      rw [if_pos hm, ih, List.map_singleton, pyDedup_append_singleton,
        if_pos (mem_pyDedup.mpr hf)]
    · rw [if_neg hm, List.map_append, List.map_singleton,
        pyDedup_append_singleton, pyDedup_append_singleton, ih]

end PyDedupLemmas

namespace clean_data

/-- What one raw row adds under its key: the two parsed metric cells and
the stripped subqueue label. -/
def rowContrib (r : RawRow) : Option ℚ × Option ℚ × String :=
  (parse_float r.scheduled, parse_float r.actual, pyStrip r.subqueue)

/-- Apply one row's contribution to a per-group accumulator. -/
def applyContrib (c : Option ℚ × Option ℚ × String) (e : AggEntry) :
    AggEntry :=
  { scheduled := e.scheduled ++ c.1.toList
    actual := e.actual ++ c.2.1.toList
    subqueues :=
      if c.2.2 = "" then e.subqueues else addIfAbsent c.2.2 e.subqueues }

/-- The row loop body in guard/payload normal form. -/
theorem loadStep_eq (start : PyDate)
    (acc : List ((String × String) × AggEntry)) (r : RawRow) :
    loadStep start acc r =
      match rowKey start r with
      | none => acc
      | some k => updateA k (applyContrib (rowContrib r)) emptyAgg acc := by
  unfold loadStep rowKey rowContrib applyContrib
  by_cases h1 : pyStrip r.date = "" ∨ pyStrip r.oblast = ""
  · simp [h1]
  · simp only [if_neg h1]
    cases hp : strptime_dmy (pyStrip r.date) with
    | none => simp
    | some d =>
      by_cases h2 : PyDate.ltB d start = true
      · simp [h2]
      · simp [h2]

/-- The contributions a list of raw rows makes under key `k`, in row
order. -/
def contribs (start : PyDate) (k : String × String) (rows : List RawRow) :
    List (Option ℚ × Option ℚ × String) :=
  (rows.filter fun r => rowKey start r = some k).map rowContrib

/-- Folding the row loop refines to: per key, fold the contributions of
the rows whose key matches. -/
theorem lookupA_load_fold (start : PyDate) (rows : List RawRow)
    (acc : List ((String × String) × AggEntry)) (k : String × String) :
    lookupA k (rows.foldl (loadStep start) acc) =
      if contribs start k rows = [] then lookupA k acc
      else
        some ((contribs start k rows).foldl (fun e c => applyContrib c e)
          ((lookupA k acc).getD emptyAgg)) := by
  induction rows generalizing acc with
  | nil => simp [contribs]
  | cons r rows ih =>
    rw [List.foldl_cons, loadStep_eq]
    cases hk : rowKey start r with
    | none =>
      have hc : contribs start k (r :: rows) = contribs start k rows := by
        simp [contribs, List.filter_cons, hk]
      rw [hc]; exact ih acc
    | some k2 =>
      by_cases hkk : k2 = k
      · subst hkk
        have hc : contribs start k2 (r :: rows) =
            rowContrib r :: contribs start k2 rows := by
          simp [contribs, List.filter_cons, hk]
        have hl : lookupA k2
              (updateA k2 (applyContrib (rowContrib r)) emptyAgg acc) =
            some (applyContrib (rowContrib r) ((lookupA k2 acc).getD emptyAgg)) :=
          lookupA_updateA_self k2 _ emptyAgg acc
        rw [hc, ih]
        by_cases hce : contribs start k2 rows = []
        · simp [hce, hl]
        · simp [hce, hl]
      · have hne : ¬ (rowKey start r = some k) := by
          rw [hk]
          intro hcon
          exact hkk (by injection hcon)
        have hc : contribs start k (r :: rows) = contribs start k rows := by
          simp [contribs, List.filter_cons, hne]
        have hl : lookupA k
              (updateA k2 (applyContrib (rowContrib r)) emptyAgg acc) =
            lookupA k acc := lookupA_updateA_ne (fun h => hkk h.symm) _ _ acc
        rw [hc, ih, hl]

theorem foldl_applyContrib_scheduled
    (cs : List (Option ℚ × Option ℚ × String)) (e : AggEntry) :
    (cs.foldl (fun e c => applyContrib c e) e).scheduled =
      e.scheduled ++ cs.filterMap (fun c => c.1) := by
  induction cs generalizing e with
  | nil => simp
  | cons c cs ih =>
    rw [List.foldl_cons, ih]
    cases hc : c.1 <;> simp [applyContrib, hc]

theorem foldl_applyContrib_actual
    (cs : List (Option ℚ × Option ℚ × String)) (e : AggEntry) :
    (cs.foldl (fun e c => applyContrib c e) e).actual =
      e.actual ++ cs.filterMap (fun c => c.2.1) := by
  induction cs generalizing e with
  | nil => simp
  | cons c cs ih =>
    rw [List.foldl_cons, ih]
    cases hc : c.2.1 <;> simp [applyContrib, hc]

theorem contribs_filterMap_scheduled (start : PyDate) (d oblast : String)
    (rows : List RawRow) :
    (contribs start (d, oblast) rows).filterMap (fun c => c.1) =
      groupScheduled start rows d oblast := by
  unfold contribs groupScheduled
  rw [List.filterMap_map]
  rfl

theorem contribs_filterMap_actual (start : PyDate) (d oblast : String)
    (rows : List RawRow) :
    (contribs start (d, oblast) rows).filterMap (fun c => c.2.1) =
      groupActual start rows d oblast := by
  unfold contribs groupActual
  rw [List.filterMap_map]
  rfl

/-- The scheduled-values list accumulated for a group is exactly the
group's present, well-formed scheduled values, in row order. -/
theorem agg_scheduled (start : PyDate) (rows : List RawRow)
    (d oblast : String) :
    ((lookupA (d, oblast) (load_raw_data start rows)).getD emptyAgg).scheduled =
      groupScheduled start rows d oblast := by
  unfold load_raw_data
  rw [lookupA_load_fold]
  by_cases hce : contribs start (d, oblast) rows = []
  · rw [if_pos hce]
    have : groupScheduled start rows d oblast = [] := by
      rw [← contribs_filterMap_scheduled, hce]; rfl
    simp [lookupA, emptyAgg, this]
  · rw [if_neg hce]
    simp only [Option.getD_some, lookupA]
    rw [foldl_applyContrib_scheduled, contribs_filterMap_scheduled]
    simp [emptyAgg]

/-- Same for the actual-values list. -/
theorem agg_actual (start : PyDate) (rows : List RawRow)
    (d oblast : String) :
    ((lookupA (d, oblast) (load_raw_data start rows)).getD emptyAgg).actual =
      groupActual start rows d oblast := by
  unfold load_raw_data
  rw [lookupA_load_fold]
  by_cases hce : contribs start (d, oblast) rows = []
  · rw [if_pos hce]
    have : groupActual start rows d oblast = [] := by
      rw [← contribs_filterMap_actual, hce]; rfl
    simp [lookupA, emptyAgg, this]
  · rw [if_neg hce]
    simp only [Option.getD_some, lookupA]
    rw [foldl_applyContrib_actual, contribs_filterMap_actual]
    simp [emptyAgg]

/-- A group key is bound in the aggregate iff some raw row contributes to
it. -/
theorem lookupA_load_raw_data_eq_none (start : PyDate) (rows : List RawRow)
    (k : String × String) :
    lookupA k (load_raw_data start rows) = none ↔
      contribs start k rows = [] := by
  unfold load_raw_data
  rw [lookupA_load_fold]
  by_cases hce : contribs start k rows = [] <;> simp [lookupA, hce]

/-- The aggregate's key list is the deduplicated row-key list, in
first-contribution order. -/
theorem map_fst_load_raw_data (start : PyDate) (rows : List RawRow) :
    (load_raw_data start rows).map Prod.fst =
      pyDedup (rows.filterMap (rowKey start)) := by
  unfold load_raw_data
  rw [pyDedup_eq_foldl]
  have main : ∀ (rows : List RawRow) (acc : List ((String × String) × AggEntry)),
      ((rows.foldl (loadStep start) acc).map Prod.fst) =
        (rows.filterMap (rowKey start)).foldl dedupStep (acc.map Prod.fst) := by
    intro rows
    induction rows with
    | nil => intro acc; rfl
    | cons r rows ih =>
      intro acc
      rw [List.foldl_cons, loadStep_eq]
      cases hk : rowKey start r with
      | none => simp only [List.filterMap_cons, hk]; exact ih acc
      | some k =>
        simp only [List.filterMap_cons, hk, List.foldl_cons]
        rw [ih]
        congr 1
        rw [map_fst_updateA]
        rfl
  exact main rows []

end clean_data

section DigitLemmas

theorem charToNat_inj {a b : Char} (h : a.toNat = b.toNat) : a = b :=
  Char.eq_of_val_eq (UInt32.toNat.inj h)

theorem digitVal_le_nine {c : Char} (h : isDigitChar c = true) :
    digitVal c ≤ 9 := by
  unfold isDigitChar at h
  rw [Bool.and_eq_true, decide_eq_true_iff, decide_eq_true_iff] at h
  unfold digitVal
  have h0 : Char.toNat '0' = 48 := by decide
  omega

theorem digitChar_isDigit {n : Nat} (h : n < 10) :
    isDigitChar (digitChar n) = true := by
  interval_cases n <;> decide

theorem digitVal_digitChar {n : Nat} (h : n < 10) :
    digitVal (digitChar n) = n := by
  interval_cases n <;> decide

theorem digitsVal_append_singleton (l : List Char) (c : Char) :
    digitsVal (l ++ [c]) = 10 * digitsVal l + digitVal c := by
  unfold digitsVal
  rw [List.foldl_append]
  rfl

theorem natDigitsCore_digits :
    ∀ (fuel n : Nat), n < fuel → ∀ c ∈ natDigitsCore fuel n,
      isDigitChar c = true := by
  intro fuel
  induction fuel with
  | zero => omega
  | succ fuel ih =>
    intro n hn c hc
    unfold natDigitsCore at hc
    by_cases h10 : n < 10
    · rw [if_pos h10] at hc
      simp only [List.mem_singleton] at hc
      subst hc
      exact digitChar_isDigit h10
    · rw [if_neg h10] at hc
      rcases List.mem_append.mp hc with h | h
      · have hdiv : n / 10 < fuel := by
          have := Nat.div_lt_self (by omega : 0 < n) (by omega : 1 < 10)
          omega
        exact ih (n / 10) hdiv c h
      · simp only [List.mem_singleton] at h
        subst h
        exact digitChar_isDigit (Nat.mod_lt n (by omega))

theorem natDigitsCore_val :
    ∀ (fuel n : Nat), n < fuel → digitsVal (natDigitsCore fuel n) = n := by
  intro fuel
  induction fuel with
  | zero => omega
  | succ fuel ih =>
    intro n hn
    unfold natDigitsCore
    by_cases h10 : n < 10
    · rw [if_pos h10]
      show digitsVal ([] ++ [digitChar n]) = n
      rw [digitsVal_append_singleton, digitVal_digitChar h10]
      simp [digitsVal]
    · rw [if_neg h10]
      have hdiv : n / 10 < fuel := by
        have := Nat.div_lt_self (by omega : 0 < n) (by omega : 1 < 10)
        omega
      rw [digitsVal_append_singleton, ih (n / 10) hdiv,
        digitVal_digitChar (Nat.mod_lt n (by omega))]
      omega

theorem natDigitsCore_len_le :
    ∀ (fuel n k : Nat), n < fuel → n < 10 ^ k → 1 ≤ k →
      (natDigitsCore fuel n).length ≤ k := by
  intro fuel
  induction fuel with
  | zero => omega
  | succ fuel ih =>
    intro n k hn hk h1
    unfold natDigitsCore
    by_cases h10 : n < 10
    · rw [if_pos h10]; simpa using h1
    · rw [if_neg h10]
      have hk2 : 2 ≤ k := by
        by_contra hcon
        have : k = 1 := by omega
        subst this
        simp at hk
        omega
      have hdiv : n / 10 < fuel := by
        have := Nat.div_lt_self (by omega : 0 < n) (by omega : 1 < 10)
        omega
      have hpow : n / 10 < 10 ^ (k - 1) := by
        rw [Nat.div_lt_iff_lt_mul (by omega : 0 < 10)]
        have : 10 ^ (k - 1) * 10 = 10 ^ k := by
          rw [← Nat.pow_succ]
          congr 1
          omega
        omega
      have := ih (n / 10) (k - 1) hdiv hpow (by omega)
      simp only [List.length_append, List.length_singleton]
      omega

theorem natDigits_val (n : Nat) : digitsVal (natDigits n) = n :=
  natDigitsCore_val (n + 1) n (Nat.lt_succ_self n)

theorem natDigits_digits (n : Nat) :
    ∀ c ∈ natDigits n, isDigitChar c = true :=
  natDigitsCore_digits (n + 1) n (Nat.lt_succ_self n)

theorem natDigits_len_le {n k : Nat} (h : n < 10 ^ k) (hk : 1 ≤ k) :
    (natDigits n).length ≤ k :=
  natDigitsCore_len_le (n + 1) n k (Nat.lt_succ_self n) h hk

theorem padZeros_length {k : Nat} {ds : List Char} (h : ds.length ≤ k) :
    (padZeros k ds).length = k := by
  simp only [padZeros, List.length_append, List.length_replicate]
  omega

theorem padZeros_digits {k : Nat} {ds : List Char}
    (h : ∀ c ∈ ds, isDigitChar c = true) :
    ∀ c ∈ padZeros k ds, isDigitChar c = true := by
  intro c hc
  rcases List.mem_append.mp hc with hm | hm
  · rw [List.eq_of_mem_replicate hm]
    decide
  · exact h c hm

theorem digitsVal_replicate_zero_append (m : Nat) (ds : List Char) :
    digitsVal (List.replicate m '0' ++ ds) = digitsVal ds := by
  induction m with
  | zero => rfl
  | succ m ih =>
    have : List.replicate (m + 1) '0' ++ ds = '0' :: (List.replicate m '0' ++ ds) := by
      simp [List.replicate_succ]
    rw [this]
    show List.foldl (fun a c => 10 * a + digitVal c) (10 * 0 + digitVal '0')
      (List.replicate m '0' ++ ds) = digitsVal ds
    have h0 : 10 * 0 + digitVal '0' = 0 := by decide
    rw [h0]
    exact ih

theorem digitsVal_padZeros (k : Nat) (ds : List Char) :
    digitsVal (padZeros k ds) = digitsVal ds :=
  digitsVal_replicate_zero_append (k - ds.length) ds

theorem digitsVal_lt_pow :
    ∀ (l : List Char), (∀ c ∈ l, isDigitChar c = true) →
      digitsVal l < 10 ^ l.length := by
  have aux : ∀ (l : List Char) (acc : Nat),
      (∀ c ∈ l, isDigitChar c = true) →
      List.foldl (fun a c => 10 * a + digitVal c) acc l <
        (acc + 1) * 10 ^ l.length := by
    intro l
    induction l with
    | nil => intro acc h; simp
    | cons c t ih =>
      intro acc h
      rw [List.foldl_cons]
      have hdig : digitVal c ≤ 9 :=
        digitVal_le_nine (h c (List.mem_cons_self c t))
      have ht := ih (10 * acc + digitVal c)
        (fun x hx => h x (List.mem_cons_of_mem c hx))
      calc List.foldl (fun a c => 10 * a + digitVal c) (10 * acc + digitVal c) t
          < (10 * acc + digitVal c + 1) * 10 ^ t.length := ht
        _ ≤ ((acc + 1) * 10) * 10 ^ t.length := by
            apply Nat.mul_le_mul_right
            omega
        _ = (acc + 1) * 10 ^ (c :: t).length := by
            rw [List.length_cons, Nat.pow_succ]
            ring
  intro l h
  have := aux l 0 h
  simpa using this

theorem dropWhile_append_all {p : Char → Bool} {l1 : List Char}
    (l2 : List Char) (h : ∀ c ∈ l1, p c = true) :
    (l1 ++ l2).dropWhile p = l2.dropWhile p := by
  induction l1 with
  | nil => rfl
  | cons c t ih =>
    rw [List.cons_append, List.dropWhile_cons_of_pos (h c (List.mem_cons_self c t))]
    exact ih (fun x hx => h x (List.mem_cons_of_mem c hx))

theorem span_digits_dot (A rest : List Char)
    (hA : ∀ c ∈ A, isDigitChar c = true) :
    (A ++ '.' :: rest).span isDigitChar = (A, '.' :: rest) := by
  rw [List.span_eq_take_drop, Prod.mk.injEq]
  have hdot : isDigitChar '.' = false := by decide
  constructor
  · rw [List.takeWhile_append_of_pos hA, List.takeWhile_cons_of_neg (by simp [hdot])]
    simp
  · rw [dropWhile_append_all _ hA, List.dropWhile_cons_of_neg (by simp [hdot])]

theorem span_digits_all (A : List Char)
    (hA : ∀ c ∈ A, isDigitChar c = true) :
    A.span isDigitChar = (A, []) := by
  rw [List.span_eq_take_drop, Prod.mk.injEq]
  constructor
  · exact List.takeWhile_eq_self_iff.mpr hA
  · exact List.dropWhile_eq_nil_iff.mpr hA

end DigitLemmas

section StrftimeLemmas

theorem strftime_data (p : PyDate) :
    (strftime_dmy p).data =
      padZeros 2 (natDigits p.day) ++ '.' ::
        (padZeros 2 (natDigits p.month) ++ '.' :: padZeros 4 (natDigits p.year)) :=
  rfl

/-- Rendering a `strptime`-produced date back through `strftime` parses to
the same date: the core normalization fact of the pipeline. -/
theorem strptime_strftime {p : PyDate} (h : p.Valid) :
    strptime_dmy (strftime_dmy p) = some p := by
  obtain ⟨h1, h2, h3, h4, h5, h6⟩ := h
  have hdim : daysInMonth p.month p.year ≤ 31 := by
    unfold daysInMonth
    split
    · split <;> omega
    · split <;> omega
  have hday99 : p.day < 10 ^ 2 := by omega
  have hmon99 : p.month < 10 ^ 2 := by omega
  have hyr : p.year < 10 ^ 4 := by omega
  have hA := @padZeros_digits 2 (natDigits p.day) (natDigits_digits p.day)
  have hB := @padZeros_digits 2 (natDigits p.month) (natDigits_digits p.month)
  have hC := @padZeros_digits 4 (natDigits p.year) (natDigits_digits p.year)
  have hlenA : (padZeros 2 (natDigits p.day)).length = 2 :=
    padZeros_length (natDigits_len_le hday99 (by omega))
  have hlenB : (padZeros 2 (natDigits p.month)).length = 2 :=
    padZeros_length (natDigits_len_le hmon99 (by omega))
  have hlenC : (padZeros 4 (natDigits p.year)).length = 4 :=
    padZeros_length (natDigits_len_le hyr (by omega))
  unfold strptime_dmy strptimeListDmy
  rw [strftime_data, span_digits_dot _ _ hA]
  simp only
  rw [span_digits_dot _ _ hB]
  simp only
  rw [span_digits_all _ hC]
  simp only [if_pos rfl]
  unfold mkStrptimeDate
  simp only [digitsVal_padZeros, natDigits_val]
  have hcond : 1 ≤ (padZeros 2 (natDigits p.day)).length ∧
      (padZeros 2 (natDigits p.day)).length ≤ 2 ∧
      1 ≤ (padZeros 2 (natDigits p.month)).length ∧
      (padZeros 2 (natDigits p.month)).length ≤ 2 ∧
      (padZeros 4 (natDigits p.year)).length = 4 ∧
      1 ≤ p.day ∧ p.day ≤ 31 ∧ 1 ≤ p.month ∧ p.month ≤ 12 ∧ 1 ≤ p.year ∧
      p.day ≤ daysInMonth p.month p.year :=
    ⟨by omega, by omega, by omega, by omega, hlenC, h1, by omega,
      h3, h4, h5, h2⟩
  rw [if_pos hcond]

/-- Everything `strptime` returns is range- and calendar-valid. -/
theorem strptime_valid {s : String} {p : PyDate}
    (h : strptime_dmy s = some p) : p.Valid := by
  unfold strptime_dmy strptimeListDmy at h
  split at h
  · rename_i a r2 heq1
    split at h
    · rename_i b r4 heq2
      split at h
      · rename_i c heq3
        unfold mkStrptimeDate at h
        simp only [] at h
        split at h
        · rename_i hcond
          have hp : p = ⟨digitsVal a, digitsVal b, digitsVal c⟩ := by
            injection h with h1
            exact h1.symm
          have hcdig : ∀ x ∈ c, isDigitChar x = true := by
            intro x hx
            have : c = List.takeWhile isDigitChar r4 := by
              have := congrArg Prod.fst heq3
              rw [List.span_eq_take_drop] at this
              exact this.symm
            rw [this] at hx
            exact List.mem_takeWhile_imp hx
          have hclt := digitsVal_lt_pow c hcdig
          obtain ⟨q1, q2, q3, q4, q5, q6, q7, q8, q9, q10, q11⟩ := hcond
          rw [q5] at hclt
          have hc9999 : digitsVal c ≤ 9999 := by
            have hpow : (10 : Nat) ^ 4 = 10000 := by norm_num
            omega
          rw [hp]
          exact ⟨q6, q11, q8, q9, q10, hc9999⟩
        · exact absurd h (by simp)
      · exact absurd h (by simp)
    · exact absurd h (by simp)
  · exact absurd h (by simp)

end StrftimeLemmas

section PyStripLemmas

theorem head?_dropWhile_not {p : Char → Bool} :
    ∀ (l : List Char) (c : Char), (l.dropWhile p).head? = some c →
      p c = false := by
  intro l
  induction l with
  | nil => intro c h; simp at h
  | cons a t ih =>
    intro c h
    by_cases hp : p a = true
    · rw [List.dropWhile_cons_of_pos hp] at h
      exact ih c h
    · rw [List.dropWhile_cons_of_neg hp] at h
      simp only [List.head?_cons, Option.some.injEq] at h
      subst h
      exact Bool.eq_false_iff.mpr hp

theorem dropWhile_eq_self_of_head {p : Char → Bool} {l : List Char}
    (h : ∀ c, l.head? = some c → p c = false) : l.dropWhile p = l := by
  cases l with
  | nil => rfl
  | cons a t =>
    exact List.dropWhile_cons_of_neg (by simp [h a rfl])

theorem pyStripList_head? {l : List Char} {c : Char}
    (h : (pyStripList l).head? = some c) : isPySpace c = false := by
  unfold pyStripList at h
  set l1 := l.dropWhile isPySpace with hl1
  set x := l1.reverse.dropWhile isPySpace with hx
  have hsuf : x <:+ l1.reverse := List.dropWhile_suffix isPySpace
  have hpre : x.reverse <+: l1 := by
    rw [← List.reverse_reverse l1]
    exact List.reverse_prefix.mpr hsuf
  obtain ⟨t, ht⟩ := hpre
  have hne : x.reverse ≠ [] := by
    intro he
    rw [he] at h
    simp at h
  have : l1.head? = some c := by
    rw [← ht, List.head?_append_of_ne_nil _ hne, h]
  exact head?_dropWhile_not l c this

theorem pyStripList_getLast? {l : List Char} {c : Char}
    (h : (pyStripList l).getLast? = some c) : isPySpace c = false := by
  unfold pyStripList at h
  rw [List.getLast?_reverse] at h
  exact head?_dropWhile_not _ c h

theorem pyStripList_idem (l : List Char) :
    pyStripList (pyStripList l) = pyStripList l := by
  have h1 : (pyStripList l).dropWhile isPySpace = pyStripList l := by
    apply dropWhile_eq_self_of_head
    intro c hc
    exact pyStripList_head? hc
  show (((pyStripList l).dropWhile isPySpace).reverse.dropWhile
      isPySpace).reverse = pyStripList l
  rw [h1]
  have h2 : (pyStripList l).reverse.dropWhile isPySpace =
      (pyStripList l).reverse := by
    apply dropWhile_eq_self_of_head
    intro c hc
    rw [List.head?_reverse] at hc
    exact pyStripList_getLast? hc
  rw [h2, List.reverse_reverse]

theorem pyStrip_pyStrip (s : String) : pyStrip (pyStrip s) = pyStrip s := by
  unfold pyStrip
  rw [pyStripList_idem]

theorem pyStrip_eq_self {s : String}
    (h : ∀ c ∈ s.data, isPySpace c = false) : pyStrip s = s := by
  unfold pyStrip pyStripList
  have h1 : s.data.dropWhile isPySpace = s.data :=
    dropWhile_eq_self_of_head fun c hc => by
      apply h
      cases hd : s.data with
      | nil => rw [hd] at hc; simp at hc
      | cons a t =>
        rw [hd] at hc
        simp only [List.head?_cons, Option.some.injEq] at hc
        rw [← hc]
        exact List.mem_cons_self a t
  rw [h1]
  have h2 : s.data.reverse.dropWhile isPySpace = s.data.reverse :=
    dropWhile_eq_self_of_head fun c hc => by
      rw [List.head?_reverse] at hc
      have : c ∈ s.data := List.mem_of_getLast?_eq_some hc
      exact h c this
  rw [h2, List.reverse_reverse]

end PyStripLemmas

section StrftimeStringLemmas

theorem isPySpace_false_of_digit {c : Char} (h : isDigitChar c = true) :
    isPySpace c = false := by
  unfold isDigitChar at h
  rw [Bool.and_eq_true, decide_eq_true_iff, decide_eq_true_iff] at h
  unfold isPySpace
  have e1 : c ≠ ' ' := fun he => absurd h (by subst he; decide)
  have e2 : c ≠ '\t' := fun he => absurd h (by subst he; decide)
  have e3 : c ≠ '\n' := fun he => absurd h (by subst he; decide)
  have e4 : c ≠ '\x0d' := fun he => absurd h (by subst he; decide)
  have e5 : c ≠ '\x0b' := fun he => absurd h (by subst he; decide)
  have e6 : c ≠ '\x0c' := fun he => absurd h (by subst he; decide)
  simp [e1, e2, e3, e4, e5, e6]

theorem strftime_chars (p : PyDate) :
    ∀ c ∈ (strftime_dmy p).data, isPySpace c = false := by
  intro c hc
  rw [strftime_data] at hc
  have hdot : isPySpace '.' = false := by decide
  rcases List.mem_append.mp hc with hm | hm
  · exact isPySpace_false_of_digit
      (@padZeros_digits 2 (natDigits p.day) (natDigits_digits p.day) c hm)
  · rcases List.mem_cons.mp hm with he | hm2
    · rw [he]; exact hdot
    · rcases List.mem_append.mp hm2 with hm3 | hm4
      · exact isPySpace_false_of_digit
          (@padZeros_digits 2 (natDigits p.month) (natDigits_digits p.month) c hm3)
      · rcases List.mem_cons.mp hm4 with he | hm5
        · rw [he]; exact hdot
        · exact isPySpace_false_of_digit
            (@padZeros_digits 4 (natDigits p.year) (natDigits_digits p.year) c hm5)

theorem pyStrip_strftime (p : PyDate) :
    pyStrip (strftime_dmy p) = strftime_dmy p :=
  pyStrip_eq_self (strftime_chars p)

theorem strftime_ne_empty (p : PyDate) : ¬ strftime_dmy p = String.mk [] := by
  intro he
  have := congrArg String.data he
  rw [strftime_data] at this
  simp at this

end StrftimeStringLemmas

namespace clean_data

/-- The sorted oblast list of `main` (`sorted(region_ids.keys())`). -/
def sortedOblasts (region_rows : List RegionRow) : List String :=
  List.insertionSort strLe ((load_region_ids region_rows).map fun kv => kv.1)

theorem main_rows_eq {start : PyDate} {raw_rows : List RawRow}
    (region_rows : List RegionRow) {dates : List String}
    (hcd : clean_dates (load_raw_data start raw_rows) = some dates) :
    main_rows region_rows raw_rows start =
      some (dates.flatMap fun date =>
        (sortedOblasts region_rows).map fun oblast =>
          makeRow (load_region_ids region_rows) (load_raw_data start raw_rows)
            date oblast) := by
  unfold main_rows
  rw [hcd]
  rfl

theorem main_rows_some {region_rows : List RegionRow} {raw_rows : List RawRow}
    {start : PyDate} {out : List CleanRow}
    (hout : main_rows region_rows raw_rows start = some out) :
    ∃ dates, clean_dates (load_raw_data start raw_rows) = some dates ∧
      out = dates.flatMap fun date =>
        (sortedOblasts region_rows).map fun oblast =>
          makeRow (load_region_ids region_rows) (load_raw_data start raw_rows)
            date oblast := by
  cases hcd : clean_dates (load_raw_data start raw_rows) with
  | none => rw [main_rows, hcd] at hout; exact absurd hout (by simp)
  | some dates =>
    refine ⟨dates, rfl, ?_⟩
    rw [main_rows_eq region_rows hcd] at hout
    injection hout with h
    exact h.symm

theorem makeRow_date (region_ids : List (String × String))
    (agg : List ((String × String) × AggEntry)) (date oblast : String) :
    (makeRow region_ids agg date oblast).date = date := rfl

theorem makeRow_oblast (region_ids : List (String × String))
    (agg : List ((String × String) × AggEntry)) (date oblast : String) :
    (makeRow region_ids agg date oblast).oblast = oblast := rfl

/-- Every emitted data row is the `makeRow` of its own (date, oblast). -/
theorem mem_main_rows {region_rows : List RegionRow} {raw_rows : List RawRow}
    {start : PyDate} {out : List CleanRow} {r : CleanRow}
    (hout : main_rows region_rows raw_rows start = some out) (hr : r ∈ out) :
    r = makeRow (load_region_ids region_rows) (load_raw_data start raw_rows)
      r.date r.oblast := by
  obtain ⟨dates, hcd, hbody⟩ := main_rows_some hout
  subst hbody
  rw [List.mem_flatMap] at hr
  obtain ⟨d, hd, hr2⟩ := hr
  rw [List.mem_map] at hr2
  obtain ⟨ob, hob, hr3⟩ := hr2
  subst hr3
  rfl

end clean_data

namespace clean_data

theorem makeRow_scheduled (region_ids : List (String × String))
    (agg : List ((String × String) × AggEntry)) (date oblast : String) :
    (makeRow region_ids agg date oblast).scheduled =
      if ((lookupA (date, oblast) agg).getD emptyAgg).scheduled = [] then none
      else some (pyMean ((lookupA (date, oblast) agg).getD emptyAgg).scheduled) :=
  rfl

theorem makeRow_actual (region_ids : List (String × String))
    (agg : List ((String × String) × AggEntry)) (date oblast : String) :
    (makeRow region_ids agg date oblast).actual =
      if ((lookupA (date, oblast) agg).getD emptyAgg).actual = [] then none
      else some (pyMean ((lookupA (date, oblast) agg).getD emptyAgg).actual) :=
  rfl

theorem makeRow_gid (region_ids : List (String × String))
    (agg : List ((String × String) × AggEntry)) (date oblast : String) :
    (makeRow region_ids agg date oblast).gid =
      (lookupA oblast region_ids).getD (String.mk []) :=
  rfl

theorem makeRow_subqueues (region_ids : List (String × String))
    (agg : List ((String × String) × AggEntry)) (date oblast : String) :
    (makeRow region_ids agg date oblast).subqueues =
      String.intercalate (", ")
        (List.insertionSort strLe
          ((lookupA (date, oblast) agg).getD emptyAgg).subqueues) :=
  rfl

end clean_data

/-- C2: in the written aggregate, each metric cell of a row is the
arithmetic mean of the present well-formed values of that metric in the
row's (date, region) group, and is the empty cell — never the number 0 —
when the group has no present values for the metric. -/
theorem claim_C2 (region_rows : List RegionRow) (raw_rows : List RawRow)
    (start : PyDate) (out : List CleanRow)
    (hout : clean_data.main_rows region_rows raw_rows start = some out)
    (r : CleanRow) (hr : r ∈ out) :
    (r.scheduled =
      if groupScheduled start raw_rows r.date r.oblast = [] then none
      else some (pyMean (groupScheduled start raw_rows r.date r.oblast))) ∧
    (r.actual =
      if groupActual start raw_rows r.date r.oblast = [] then none
      else some (pyMean (groupActual start raw_rows r.date r.oblast))) := by
  have hrr := clean_data.mem_main_rows hout hr
  have hs := clean_data.agg_scheduled start raw_rows r.date r.oblast
  have ha := clean_data.agg_actual start raw_rows r.date r.oblast
  constructor
  · have h1 : r.scheduled =
        (clean_data.makeRow (clean_data.load_region_ids region_rows)
          (clean_data.load_raw_data start raw_rows) r.date r.oblast).scheduled :=
      congrArg CleanRow.scheduled hrr
    rw [h1, clean_data.makeRow_scheduled, hs]
  · have h1 : r.actual =
        (clean_data.makeRow (clean_data.load_region_ids region_rows)
          (clean_data.load_raw_data start raw_rows) r.date r.oblast).actual :=
      congrArg CleanRow.actual hrr
    rw [h1, clean_data.makeRow_actual, ha]

theorem PyDate.ltB_eq_false_iff {a b : PyDate} :
    PyDate.ltB a b = false ↔ PyDate.le b a := by
  unfold PyDate.ltB PyDate.le
  simp only [Bool.or_eq_false_iff, Bool.and_eq_false_iff,
    decide_eq_false_iff_not, decide_eq_true_eq, not_lt]
  omega

theorem clean_data.rowKey_none_of_lt {start : PyDate} {r : RawRow}
    {d0 : PyDate} (hparse : strptime_dmy (pyStrip r.date) = some d0)
    (hlt : PyDate.ltB d0 start = true) :
    clean_data.rowKey start r = none := by
  unfold clean_data.rowKey
  by_cases hempty : pyStrip r.date = "" ∨ pyStrip r.oblast = ""
  · rw [if_pos hempty]
  · rw [if_neg hempty, hparse]
    simp [hlt]

/-- C4: a raw row with a parseable date contributes to the aggregate iff
its parsed date is on or after the threshold (given the other row filter,
a nonempty region); a row dated strictly before the threshold leaves the
aggregation state untouched. -/
theorem claim_C4 (start : PyDate) (r : RawRow) (d0 : PyDate)
    (hparse : strptime_dmy (pyStrip r.date) = some d0) :
    (pyStrip r.oblast ≠ "" →
      ((clean_data.rowKey start r).isSome = true ↔ PyDate.le start d0)) ∧
    (PyDate.ltB d0 start = true →
      ∀ acc, clean_data.loadStep start acc r = acc) := by
  have hdate : pyStrip r.date ≠ "" := by
    intro he
    rw [he] at hparse
    have hnone : strptime_dmy "" = none := by decide
    rw [hnone] at hparse
    exact absurd hparse (by simp)
  constructor
  · intro hobl
    unfold clean_data.rowKey
    rw [if_neg (by simp [hdate, hobl]), hparse]
    simp only
    by_cases hlt : PyDate.ltB d0 start = true
    · rw [if_pos hlt]
      simp only [Option.isSome_none, Bool.false_eq_true, false_iff]
      intro hle
      rw [← PyDate.ltB_eq_false_iff] at hle
      rw [hlt] at hle
      exact absurd hle (by simp)
    · rw [if_neg hlt]
      simp only [Option.isSome_some, true_iff]
      rw [← PyDate.ltB_eq_false_iff]
      exact Bool.eq_false_iff.mpr hlt
  · intro hlt acc
    rw [clean_data.loadStep_eq, clean_data.rowKey_none_of_lt hparse hlt]

/-- Concrete instance of C4: the spec's scenario row dated 15.01.2026
against the default threshold 31.01.2026. -/
theorem claim_C4_witness :
    ((clean_data.rowKey ⟨31, 1, 2026⟩
        (RawRow.mk ("15.01.2026") ("Kyiv") ("") ("5") (""))).isSome = true ↔
      PyDate.le ⟨31, 1, 2026⟩ ⟨15, 1, 2026⟩) ∧
    clean_data.loadStep ⟨31, 1, 2026⟩ []
      (RawRow.mk ("15.01.2026") ("Kyiv") ("") ("5") ("")) = [] :=
  ⟨(claim_C4 ⟨31, 1, 2026⟩ (RawRow.mk ("15.01.2026") ("Kyiv") ("") ("5") (""))
      ⟨15, 1, 2026⟩ (by decide)).1 (by decide),
    (claim_C4 ⟨31, 1, 2026⟩ (RawRow.mk ("15.01.2026") ("Kyiv") ("") ("5") (""))
      ⟨15, 1, 2026⟩ (by decide)).2 (by decide) []⟩

namespace clean_data

theorem clean_dates_some {agg : List ((String × String) × AggEntry)}
    {dates : List String} (h : clean_dates agg = some dates) :
    dates = List.insertionSort dateKeyLe (pyDedup (agg.map fun kv => kv.1.1)) ∧
    ∀ d ∈ pyDedup (agg.map fun kv => kv.1.1), (strptime_dmy d).isSome = true := by
  unfold clean_dates at h
  simp only [] at h
  split at h
  · rename_i hall
    refine ⟨by injection h with h1; exact h1.symm, ?_⟩
    intro d hd
    exact List.all_eq_true.mp hall d hd
  · exact absurd h (by simp)

theorem ds_eq_validDates (start : PyDate) (raws : List RawRow) :
    pyDedup ((load_raw_data start raws).map fun kv => kv.1.1) =
      validDates start raws := by
  have h1 : (load_raw_data start raws).map (fun kv => kv.1.1) =
      ((load_raw_data start raws).map Prod.fst).map Prod.fst := by
    rw [List.map_map]
    rfl
  rw [h1, map_fst_load_raw_data, pyDedup_map_pyDedup]
  rfl

theorem nodup_keys_load_region_ids (region_rows : List RegionRow) :
    ((load_region_ids region_rows).map Prod.fst).Nodup := by
  unfold load_region_ids
  have main : ∀ (rows : List RegionRow) (acc : List (String × String)),
      (acc.map Prod.fst).Nodup →
      ((rows.foldl (fun acc row =>
        if pyStrip row.oblast = "" then acc
        else insertA (pyStrip row.oblast) (pyStrip row.gid) acc) acc).map
          Prod.fst).Nodup := by
    intro rows
    induction rows with
    | nil => intro acc h; exact h
    | cons row rows ih =>
      intro acc hacc
      rw [List.foldl_cons]
      by_cases he : pyStrip row.oblast = ""
      · rw [if_pos he]; exact ih acc hacc
      · rw [if_neg he]
        apply ih
        rw [map_fst_insertA]
        by_cases hm : pyStrip row.oblast ∈ acc.map Prod.fst
        · rw [if_pos hm]; exact hacc
        · rw [if_neg hm]
          rw [List.nodup_append]
          exact ⟨hacc, List.nodup_singleton _, by simpa using hm⟩
  exact main region_rows [] (by simp)

end clean_data

theorem length_flatMap_const {α β : Type} (l : List α) (f : α → List β)
    (n : Nat) (h : ∀ a ∈ l, (f a).length = n) :
    (l.flatMap f).length = l.length * n := by
  induction l with
  | nil => simp
  | cons a t ih =>
    rw [List.flatMap_cons, List.length_append, h a (List.mem_cons_self a t),
      ih (fun x hx => h x (List.mem_cons_of_mem a hx)), List.length_cons]
    ring

theorem nodup_pairs {α β : Type} (l1 : List α) (l2 : List β)
    (h1 : l1.Nodup) (h2 : l2.Nodup) :
    (l1.flatMap fun a => l2.map fun b => (a, b)).Nodup := by
  induction l1 with
  | nil => simp
  | cons a t ih =>
    rw [List.flatMap_cons, List.nodup_append]
    rw [List.nodup_cons] at h1
    refine ⟨h2.map (fun b1 b2 hb => by injection hb), ih h1.2, ?_⟩
    intro x hx1 hx2
    rw [List.mem_map] at hx1
    obtain ⟨b, hb, hxb⟩ := hx1
    rw [List.mem_flatMap] at hx2
    obtain ⟨a2, ha2, hx2b⟩ := hx2
    rw [List.mem_map] at hx2b
    obtain ⟨b2, hb2, hxb2⟩ := hx2b
    rw [← hxb2] at hxb
    injection hxb with hfst hsnd
    exact h1.1 (hfst ▸ ha2)

/-- C1: the written aggregate has exactly |valid dates| × |known regions|
data rows — one per (valid filtered date, known region) pair, with no
duplicate pairs; a pair with no contributing raw rows gets empty metric
cells and an empty sub-unit list; an empty raw input yields zero data
rows. -/
theorem claim_C1 (region_rows : List RegionRow) (raw_rows : List RawRow)
    (start : PyDate) (out : List CleanRow)
    (hout : clean_data.main_rows region_rows raw_rows start = some out) :
    out.length =
      (validDates start raw_rows).length * (knownRegions region_rows).length ∧
    (∀ d ob, (d, ob) ∈ out.map (fun r => (r.date, r.oblast)) ↔
      d ∈ validDates start raw_rows ∧ ob ∈ knownRegions region_rows) ∧
    (out.map fun r => (r.date, r.oblast)).Nodup ∧
    (∀ r ∈ out,
      (∀ rr ∈ raw_rows, clean_data.rowKey start rr ≠ some (r.date, r.oblast)) →
      r.scheduled = none ∧ r.actual = none ∧ r.subqueues = "") ∧
    (raw_rows = [] → out = []) := by
  obtain ⟨dates, hcd, hbody⟩ := clean_data.main_rows_some hout
  obtain ⟨hdts, hall⟩ := clean_data.clean_dates_some hcd
  have hds := clean_data.ds_eq_validDates start raw_rows
  have hpd : dates.Perm (validDates start raw_rows) := by
    rw [hdts, hds]
    exact List.perm_insertionSort _ _
  have hpo : (clean_data.sortedOblasts region_rows).Perm
      (knownRegions region_rows) :=
    List.perm_insertionSort _ _
  have hproj : out.map (fun r => (r.date, r.oblast)) =
      dates.flatMap fun d =>
        (clean_data.sortedOblasts region_rows).map fun ob => (d, ob) := by
    rw [hbody, List.map_flatMap]
    simp [List.map_map]
    rfl
  refine ⟨?_, ?_, ?_, ?_, ?_⟩
  · rw [hbody,
      length_flatMap_const _ _ (clean_data.sortedOblasts region_rows).length
        (fun a _ => List.length_map _ _),
      hpd.length_eq, hpo.length_eq]
  · intro d ob
    rw [hproj, List.mem_flatMap]
    constructor
    · rintro ⟨d2, hd2, hmem⟩
      rw [List.mem_map] at hmem
      obtain ⟨ob2, hob2, heq⟩ := hmem
      injection heq with h1 h2
      subst h1
      subst h2
      exact ⟨hpd.mem_iff.mp hd2, hpo.mem_iff.mp hob2⟩
    · rintro ⟨hd, hob⟩
      exact ⟨d, hpd.mem_iff.mpr hd,
        List.mem_map.mpr ⟨ob, hpo.mem_iff.mpr hob, rfl⟩⟩
  · rw [hproj]
    apply nodup_pairs
    · refine hpd.nodup_iff.mpr ?_
      rw [← hds]
      exact nodup_pyDedup _
    · exact hpo.nodup_iff.mpr (clean_data.nodup_keys_load_region_ids region_rows)
  · intro r hr hno
    have hrr := clean_data.mem_main_rows hout hr
    have hfil : (raw_rows.filter
        (fun rr => clean_data.rowKey start rr = some (r.date, r.oblast))) = [] :=
      List.filter_eq_nil_iff.mpr (by
        intro rr hmem
        simp only [decide_eq_true_eq]
        exact hno rr hmem)
    have hcontrib : clean_data.contribs start (r.date, r.oblast) raw_rows = [] := by
      unfold clean_data.contribs
      rw [hfil]
      rfl
    have hlook : lookupA (r.date, r.oblast)
        (clean_data.load_raw_data start raw_rows) = none :=
      (clean_data.lookupA_load_raw_data_eq_none start raw_rows _).mpr hcontrib
    refine ⟨?_, ?_, ?_⟩
    · have h1 := congrArg CleanRow.scheduled hrr
      rw [clean_data.makeRow_scheduled, hlook] at h1
      simpa [emptyAgg] using h1
    · have h1 := congrArg CleanRow.actual hrr
      rw [clean_data.makeRow_actual, hlook] at h1
      simpa [emptyAgg] using h1
    · have h1 := congrArg CleanRow.subqueues hrr
      rw [clean_data.makeRow_subqueues, hlook] at h1
      rw [h1]
      rfl
  · intro hraw
    subst hraw
    rw [hbody, hdts]
    rfl

/-- Example region mapping (spec §8 scenario). -/
def exRegionRows : List RegionRow := [⟨"Kyiv", "UA-30"⟩]

/-- Example raw survey rows (spec §8 scenario: two Kyiv reports of 4 and 6
scheduled hours on 01.02.2026). -/
def exRawRows : List RawRow :=
  [⟨"01.02.2026", "Kyiv", "", "4", ""⟩, ⟨"01.02.2026", "Kyiv", "", "6", ""⟩]

/-- Example threshold (the script's default start date 31.01.2026). -/
def exStart : PyDate := ⟨31, 1, 2026⟩

/-- The clean data row the pipeline writes for the example input. -/
def exCleanRow : CleanRow := ⟨"01.02.2026", "Kyiv", "UA-30", some 5, none, ""⟩

/-- The full example output. -/
def exOut : List CleanRow := [exCleanRow]

theorem claim_C1_witness :
    exOut.length =
      (validDates exStart exRawRows).length * (knownRegions exRegionRows).length :=
  (claim_C1 exRegionRows exRawRows exStart exOut
    (by with_unfolding_all decide)).1

theorem claim_C2_witness :
    (exCleanRow.scheduled =
      if groupScheduled exStart exRawRows exCleanRow.date exCleanRow.oblast = []
      then none
      else some (pyMean
        (groupScheduled exStart exRawRows exCleanRow.date exCleanRow.oblast))) ∧
    (exCleanRow.actual =
      if groupActual exStart exRawRows exCleanRow.date exCleanRow.oblast = []
      then none
      else some (pyMean
        (groupActual exStart exRawRows exCleanRow.date exCleanRow.oblast))) :=
  claim_C2 exRegionRows exRawRows exStart exOut (by with_unfolding_all decide)
    exCleanRow (by with_unfolding_all decide)

/-- A raw row with an unknown region on a fresh valid date. -/
def exAtlantisRow : RawRow := ⟨"01.02.2026", "Atlantis", "", "5", ""⟩

/-- C5 counterexample: a raw row whose region is unknown to the Region
Resolver is not equivalent to an absent row — its valid date widens the
output's date set, so the written output changes (it gains an all-empty
row block for that date). -/
theorem claim_C5_counterexample :
    lookupA ("Atlantis") (clean_data.load_region_ids exRegionRows) = none ∧
    clean_data.main_rows exRegionRows [exAtlantisRow] exStart ≠
      clean_data.main_rows exRegionRows [] exStart := by
  with_unfolding_all decide

theorem clean_data.rowKey_some_snd {start : PyDate} {r : RawRow}
    {k : String × String} (h : clean_data.rowKey start r = some k) :
    k.2 = pyStrip r.oblast := by
  unfold clean_data.rowKey at h
  simp only [] at h
  split at h
  · exact absurd h (by simp)
  · split at h
    · exact absurd h (by simp)
    · split at h
      · exact absurd h (by simp)
      · injection h with h1
        rw [← h1]

/-- C5 (amended): a raw row whose region name is unknown to the Region
Resolver contributes no value to any aggregate cell of a known region:
every (date, known region) group is exactly as if the row were absent.
(The row's valid date can still enter the output's date set; see the
counterexample.) -/
theorem claim_C5 (region_rows : List RegionRow) (raw_rows : List RawRow)
    (start : PyDate) (r : RawRow)
    (hunk : pyStrip r.oblast ∉ knownRegions region_rows) :
    ∀ d ob, ob ∈ knownRegions region_rows →
      lookupA (d, ob) (clean_data.load_raw_data start (raw_rows ++ [r])) =
        lookupA (d, ob) (clean_data.load_raw_data start raw_rows) ∧
      clean_data.makeRow (clean_data.load_region_ids region_rows)
          (clean_data.load_raw_data start (raw_rows ++ [r])) d ob =
        clean_data.makeRow (clean_data.load_region_ids region_rows)
          (clean_data.load_raw_data start raw_rows) d ob := by
  intro d ob hob
  have hlook : lookupA (d, ob)
      (clean_data.load_raw_data start (raw_rows ++ [r])) =
      lookupA (d, ob) (clean_data.load_raw_data start raw_rows) := by
    unfold clean_data.load_raw_data
    rw [List.foldl_append, List.foldl_cons, List.foldl_nil,
      clean_data.loadStep_eq]
    cases hk : clean_data.rowKey start r with
    | none => rfl
    | some k =>
      have hsnd := clean_data.rowKey_some_snd hk
      have hne : (d, ob) ≠ k := by
        intro he
        rw [← he] at hsnd
        exact hunk (hsnd ▸ hob)
      exact lookupA_updateA_ne hne _ _ _
  refine ⟨hlook, ?_⟩
  unfold clean_data.makeRow
  rw [hlook]

theorem claim_C5_witness :
    lookupA (("01.02.2026", "Kyiv"))
        (clean_data.load_raw_data exStart ([] ++ [exAtlantisRow])) =
      lookupA (("01.02.2026", "Kyiv")) (clean_data.load_raw_data exStart []) ∧
    clean_data.makeRow (clean_data.load_region_ids exRegionRows)
        (clean_data.load_raw_data exStart ([] ++ [exAtlantisRow]))
        ("01.02.2026") ("Kyiv") =
      clean_data.makeRow (clean_data.load_region_ids exRegionRows)
        (clean_data.load_raw_data exStart []) ("01.02.2026") ("Kyiv") :=
  claim_C5 exRegionRows [] exStart exAtlantisRow (by with_unfolding_all decide)
    ("01.02.2026") ("Kyiv") (by with_unfolding_all decide)

/-- C6 counterexample: `parse_float` accepts strings outside decimal-comma
/decimal-point notation — scientific notation `1e3` is converted to 1000,
not treated as absent. -/
theorem claim_C6_counterexample :
    isDecimalNumeric ("1e3") = false ∧
    clean_data.parse_float ("1e3") = some 1000 := by
  with_unfolding_all decide

theorem comma_map_digit {c : Char} (h : isDigitChar c = true) :
    (if c = ',' then '.' else c) = c := by
  rw [if_neg]
  intro he
  subst he
  exact absurd h (by decide)

theorem comma_map_digits {l : List Char} (h : ∀ c ∈ l, isDigitChar c = true) :
    l.map (fun c => if c = ',' then '.' else c) = l := by
  induction l with
  | nil => rfl
  | cons c t ih =>
    rw [List.map_cons, comma_map_digit (h c (List.mem_cons_self c t)),
      ih (fun x hx => h x (List.mem_cons_of_mem c hx))]

theorem parseMantissa_digits {a : List Char}
    (ha : ∀ c ∈ a, isDigitChar c = true) (hne : a ≠ []) (sgn : Int) :
    (parseMantissa sgn a).isSome = true := by
  unfold parseMantissa
  rw [span_digits_all _ ha]
  simp only
  rw [if_neg hne]
  rfl

theorem parseMantissa_point {a b : List Char}
    (ha : ∀ c ∈ a, isDigitChar c = true)
    (hb : ∀ c ∈ b, isDigitChar c = true) (hne : ¬ (a = [] ∧ b = []))
    (sgn : Int) :
    (parseMantissa sgn (a ++ '.' :: b)).isSome = true := by
  unfold parseMantissa
  rw [span_digits_dot _ _ ha]
  simp only
  rw [span_digits_all _ hb]
  simp only
  rw [if_neg hne]
  rfl

theorem decimalCore_parse {l : List Char} (h : decimalCore l = true)
    (sgn : Int) :
    (parseMantissa sgn (l.map fun c => if c = ',' then '.' else c)).isSome =
      true := by
  unfold decimalCore at h
  simp only [] at h
  have hsplit := List.takeWhile_append_dropWhile isDigitChar l
  have hadig : ∀ c ∈ l.takeWhile isDigitChar, isDigitChar c = true :=
    fun c hc => List.mem_takeWhile_imp hc
  rw [List.span_eq_take_drop] at h
  simp only at h
  cases hrest : l.dropWhile isDigitChar with
  | nil =>
    rw [hrest] at h
    simp only [decide_eq_true_eq] at h
    have hl : l = l.takeWhile isDigitChar := by
      conv_lhs => rw [← hsplit]
      rw [hrest, List.append_nil]
    have hmap := congrArg (List.map fun c => if c = ',' then '.' else c) hl
    rw [comma_map_digits hadig] at hmap
    rw [hmap]
    exact parseMantissa_digits hadig h sgn
  | cons c r2 =>
    rw [hrest] at h
    rw [Bool.and_eq_true, Bool.and_eq_true] at h
    obtain ⟨hcs, hr2, hne⟩ := h
    rw [List.span_eq_take_drop] at hr2 hne
    simp only [decide_eq_true_eq] at hr2
    have hr2dig : ∀ x ∈ r2, isDigitChar x = true :=
      List.dropWhile_eq_nil_iff.mp hr2
    have hr2take : r2.takeWhile isDigitChar = r2 :=
      List.takeWhile_eq_self_iff.mpr hr2dig
    simp only [hr2take] at hne
    rw [Bool.or_eq_true, decide_eq_true_eq, decide_eq_true_eq] at hne
    have hl : l = l.takeWhile isDigitChar ++ c :: r2 := by
      conv_lhs => rw [← hsplit]
      rw [hrest]
    have hcmap : (if c = ',' then '.' else c) = '.' := by
      rw [Bool.or_eq_true, decide_eq_true_eq, decide_eq_true_eq] at hcs
      rcases hcs with hc | hc
      · rw [if_pos hc]
      · rw [hc]
        rfl
    have hmap := congrArg (List.map fun x => if x = ',' then '.' else x) hl
    rw [List.map_append, List.map_cons, hcmap, comma_map_digits hadig,
      comma_map_digits hr2dig] at hmap
    rw [hmap]
    apply parseMantissa_point hadig hr2dig _ sgn
    intro hcon
    rcases hne with hne | hne
    · exact hne hcon.1
    · exact hne hcon.2

theorem comma_map_plus {c : Char} :
    (if c = ',' then '.' else c) = '+' ↔ c = '+' := by
  by_cases hc : c = ','
  · rw [if_pos hc, hc]
    constructor <;> intro h <;> exact absurd h (by decide)
  · rw [if_neg hc]

theorem comma_map_minus {c : Char} :
    (if c = ',' then '.' else c) = '-' ↔ c = '-' := by
  by_cases hc : c = ','
  · rw [if_pos hc, hc]
    constructor <;> intro h <;> exact absurd h (by decide)
  · rw [if_neg hc]

/-- C6 (amended): the two stages' numeric coercions are extensionally
equal and total, and they accept every decimal-comma/decimal-point
numeral; but they also accept the rest of Python's float-literal grammar
(for instance scientific notation, see the counterexample), so "absent"
results exactly from strings outside that grammar, not outside decimal
notation. -/
theorem claim_C6 :
    (∀ s, clean_data.parse_float s = build_maps.parse_float s) ∧
    (∀ s, isDecimalNumeric (pyStrip s) = true →
      (clean_data.parse_float s).isSome = true) := by
  constructor
  · intro s
    rfl
  · intro s h
    have hnes : ¬ pyStrip s = "" := by
      intro he
      rw [he] at h
      exact absurd h (by decide)
    unfold clean_data.parse_float
    simp only []
    rw [if_neg hnes]
    cases hd : (pyStrip s).data with
    | nil => exact absurd (String.ext hd) hnes
    | cons c0 t0 =>
      rw [List.map_cons]
      unfold pyFloatChars
      simp only
      unfold isDecimalNumeric at h
      rw [hd] at h
      split at h
      · rename_i r2 heq2
        injection heq2 with hA hB
        subst hA
        subst hB
        rw [if_pos (by decide)]
        exact decimalCore_parse h 1
      · rename_i r2 heq2
        injection heq2 with hA hB
        subst hA
        subst hB
        rw [if_neg (by decide), if_pos (by decide)]
        exact decimalCore_parse h (-1)
      · rename_i hn1 hn2
        have hc0p : ¬ c0 = '+' := fun he => hn1 t0 (by rw [he])
        have hc0m : ¬ c0 = '-' := fun he => hn2 t0 (by rw [he])
        rw [if_neg (fun hcon => hc0p (comma_map_plus.mp hcon)),
          if_neg (fun hcon => hc0m (comma_map_minus.mp hcon))]
        show (parseMantissa 1
          ((c0 :: t0).map fun c => if c = ',' then '.' else c)).isSome = true
        exact decimalCore_parse h 1

theorem claim_C6_witness :
    clean_data.parse_float ("1,5") = build_maps.parse_float ("1,5") ∧
    (clean_data.parse_float ("1,5")).isSome = true :=
  ⟨claim_C6.1 ("1,5"), claim_C6.2 ("1,5") (by with_unfolding_all decide)⟩

/-- C9: over the 0–24 hour domain the embedded `getColor` realises exactly
the spec's seven inclusive buckets on the rounded value, an absent value
gets the "no data" gray, and the spec's scenario points 0, 4 and 24 hit
the first, second and last bucket. -/
theorem claim_C9 :
    (∀ q : ℚ, 0 ≤ q → q ≤ 24 →
      build_maps.getColor (some q) = specBucketColor (build_maps.jsRound q)) ∧
    build_maps.getColor none = "#cfcfcf" ∧
    build_maps.getColor (some 0) = "#2f9e44" ∧
    build_maps.getColor (some 4) = "#f2e86d" ∧
    build_maps.getColor (some 24) = "#8f1d1d" := by
  have hcore : ∀ r : ℤ, 0 ≤ r → r ≤ 24 →
      build_maps.colorOfRounded r = specBucketColor r := by
    intro r h0 h24
    interval_cases r <;> rfl
  refine ⟨?_, rfl, ?_, ?_, ?_⟩
  · intro q h0 h24
    show build_maps.colorOfRounded (build_maps.jsRound q) =
      specBucketColor (build_maps.jsRound q)
    apply hcore
    · unfold build_maps.jsRound
      have : (0 : ℤ) = ⌊(1 : ℚ) / 2⌋ := by norm_num
      rw [this]
      exact Int.floor_le_floor (by linarith)
    · unfold build_maps.jsRound
      have h245 : (⌊(24 : ℚ) + 1 / 2⌋ : ℤ) = 24 := by
        rw [Int.floor_eq_iff]
        norm_num
      rw [← h245]
      exact Int.floor_le_floor (by linarith)
  · show build_maps.colorOfRounded (build_maps.jsRound 0) = _
    norm_num [build_maps.jsRound, build_maps.colorOfRounded]
  · show build_maps.colorOfRounded (build_maps.jsRound 4) = _
    norm_num [build_maps.jsRound, build_maps.colorOfRounded]
  · show build_maps.colorOfRounded (build_maps.jsRound 24) = _
    norm_num [build_maps.jsRound, build_maps.colorOfRounded]

theorem claim_C9_witness :
    build_maps.getColor (some 7) = specBucketColor (build_maps.jsRound 7) :=
  claim_C9.1 7 (by norm_num) (by norm_num)

namespace build_maps

/-- The date a clean row adds to the navigable date accumulator, if
any. -/
def rowDate (r : CleanRow) : Option PyDate :=
  if pyStrip r.date = "" ∨ pyStrip r.gid = "" then none
  else strptime_dmy (pyStrip r.date)

/-- The loader's row loop in guard/payload normal form. -/
theorem bm_loadStep_eq (acc : List (String × List (String × DayEntry)) × List PyDate)
    (row : CleanRow) :
    loadStep acc row =
      if pyStrip row.date = "" ∨ pyStrip row.gid = "" then acc
      else
        (updateA (pyStrip row.date)
          (insertA (pyStrip row.gid)
            ⟨row.scheduled, row.actual, pyStrip row.subqueues⟩) [] acc.1,
         match strptime_dmy (pyStrip row.date) with
         | some d => acc.2 ++ [d]
         | none => acc.2) := by
  unfold loadStep
  by_cases h : pyStrip row.date = "" ∨ pyStrip row.gid = ""
  · simp [h]
  · simp only [if_neg h]
    cases strptime_dmy (pyStrip row.date) <;> rfl

/-- The date accumulator after the fold: the initial dates followed by the
parsed dates of the non-skipped rows, in order. -/
theorem fold_dates (rows : List CleanRow)
    (init : List (String × List (String × DayEntry)) × List PyDate) :
    (rows.foldl loadStep init).2 = init.2 ++ rows.filterMap rowDate := by
  induction rows generalizing init with
  | nil => simp
  | cons r rows ih =>
    rw [List.foldl_cons, ih, bm_loadStep_eq]
    unfold rowDate
    by_cases h : pyStrip r.date = "" ∨ pyStrip r.gid = ""
    · simp [h]
    · rw [if_neg h, List.filterMap_cons]
      simp only [if_neg h]
      cases hp : strptime_dmy (pyStrip r.date) with
      | none => simp
      | some d => simp

/-- A (date, gid) pair present in the nested structure stays present. -/
theorem loadStep_preserves
    {acc : List (String × List (String × DayEntry)) × List PyDate}
    {d g : String} (r : CleanRow)
    (h : (lookup2 acc.1 d g).isSome = true) :
    (lookup2 (loadStep acc r).1 d g).isSome = true := by
  rw [bm_loadStep_eq]
  by_cases hskip : pyStrip r.date = "" ∨ pyStrip r.gid = ""
  · rw [if_pos hskip]; exact h
  · rw [if_neg hskip]
    simp only
    by_cases hd : d = pyStrip r.date
    · subst hd
      unfold lookup2 at h ⊢
      rw [lookupA_updateA_self]
      cases hl : lookupA (pyStrip r.date) acc.1 with
      | none => rw [hl] at h; exact absurd h (by simp)
      | some inner =>
        rw [hl] at h
        simp only [Option.getD_some, Option.some_bind] at h ⊢
        by_cases hg : g = pyStrip r.gid
        · subst hg
          rw [lookupA_insertA_self]
          rfl
        · rw [lookupA_insertA_ne hg]
          exact h
    · unfold lookup2 at h ⊢
      rw [lookupA_updateA_ne hd]
      exact h

/-- Processing a row with nonempty date and gid indexes it. -/
theorem loadStep_adds
    (acc : List (String × List (String × DayEntry)) × List PyDate)
    (r : CleanRow) (hd : pyStrip r.date ≠ "") (hg : pyStrip r.gid ≠ "") :
    (lookup2 (loadStep acc r).1 (pyStrip r.date) (pyStrip r.gid)).isSome =
      true := by
  rw [bm_loadStep_eq, if_neg (by simp [hd, hg])]
  unfold lookup2
  rw [lookupA_updateA_self]
  simp only [Option.some_bind]
  rw [lookupA_insertA_self]
  rfl

theorem fold_preserves (rows : List CleanRow)
    (init : List (String × List (String × DayEntry)) × List PyDate)
    {d g : String} (h : (lookup2 init.1 d g).isSome = true) :
    (lookup2 (rows.foldl loadStep init).1 d g).isSome = true := by
  induction rows generalizing init with
  | nil => exact h
  | cons r rows ih =>
    rw [List.foldl_cons]
    exact ih _ (loadStep_preserves r h)

/-- Every non-skipped row of the input is indexed in the loaded
structure. -/
theorem fold_hasKey {rows : List CleanRow} {r : CleanRow} (hr : r ∈ rows)
    (hd : pyStrip r.date ≠ "") (hg : pyStrip r.gid ≠ "")
    (init : List (String × List (String × DayEntry)) × List PyDate) :
    (lookup2 (rows.foldl loadStep init).1
      (pyStrip r.date) (pyStrip r.gid)).isSome = true := by
  induction rows generalizing init with
  | nil => exact absurd hr (by simp)
  | cons r0 rows ih =>
    rw [List.foldl_cons]
    rcases List.mem_cons.mp hr with he | hm
    · subst he
      exact fold_preserves rows _ (loadStep_adds init r hd hg)
    · exact ih hm _

end build_maps

namespace build_maps

theorem load_clean_data_snd (rows : List CleanRow) :
    (load_clean_data rows).2 = (rows.foldl loadStep ([], [])).1 := rfl

theorem load_clean_data_fst (rows : List CleanRow) :
    (load_clean_data rows).1 =
      (List.insertionSort PyDate.le
        (pyDedup (rows.filterMap rowDate))).map strftime_dmy := by
  show (List.insertionSort PyDate.le
      (pyDedup (rows.foldl loadStep ([], [])).2)).map strftime_dmy = _
  rw [fold_dates]
  rfl

theorem rowDate_some {r : CleanRow} {p : PyDate} (h : rowDate r = some p) :
    strptime_dmy (pyStrip r.date) = some p := by
  unfold rowDate at h
  split at h
  · exact absurd h (by simp)
  · exact h

end build_maps

/-- C7: a clean-dataset row with a nonempty unparseable date and a
nonempty region identifier does not abort the load: its values are indexed
in the nested keyed structure under the (stripped) raw date string, while
that date string never appears in the returned navigable date list. -/
theorem claim_C7 (rows : List CleanRow) (r : CleanRow) (hr : r ∈ rows)
    (hd : pyStrip r.date ≠ "")
    (hparse : strptime_dmy (pyStrip r.date) = none)
    (hg : pyStrip r.gid ≠ "") :
    (build_maps.lookup2 (build_maps.load_clean_data rows).2
      (pyStrip r.date) (pyStrip r.gid)).isSome = true ∧
    pyStrip r.date ∉ (build_maps.load_clean_data rows).1 := by
  constructor
  · rw [build_maps.load_clean_data_snd]
    exact build_maps.fold_hasKey hr hd hg ([], [])
  · rw [build_maps.load_clean_data_fst]
    intro hmem
    rw [List.mem_map] at hmem
    obtain ⟨p, hp, hps⟩ := hmem
    have hp2 : p ∈ pyDedup (rows.filterMap build_maps.rowDate) :=
      (List.perm_insertionSort PyDate.le _).mem_iff.mp hp
    have hp3 : p ∈ rows.filterMap build_maps.rowDate := mem_pyDedup.mp hp2
    rw [List.mem_filterMap] at hp3
    obtain ⟨r0, hr0, hrd⟩ := hp3
    have hval : p.Valid := strptime_valid (build_maps.rowDate_some hrd)
    have hround := strptime_strftime hval
    rw [hps] at hround
    rw [hround] at hparse
    exact absurd hparse (by simp)

/-- Concrete instance of C7: a row dated `31.02.2026` (a calendar-invalid
date) with a nonempty identifier. -/
theorem claim_C7_witness :
    (build_maps.lookup2
      (build_maps.load_clean_data
        [CleanRow.mk ("31.02.2026") ("Kyiv") ("UA-30") none none ("")]).2
      (pyStrip ("31.02.2026")) (pyStrip ("UA-30"))).isSome = true ∧
    pyStrip ("31.02.2026") ∉
      (build_maps.load_clean_data
        [CleanRow.mk ("31.02.2026") ("Kyiv") ("UA-30") none none ("")]).1 :=
  claim_C7 [CleanRow.mk ("31.02.2026") ("Kyiv") ("UA-30") none none ("")]
    (CleanRow.mk ("31.02.2026") ("Kyiv") ("UA-30") none none (""))
    (by with_unfolding_all decide) (by with_unfolding_all decide)
    (by with_unfolding_all decide) (by with_unfolding_all decide)

/-- C10 counterexample: a clean row whose date cell `1.2.2026` parses but
is not zero-padded; the navigable date list then contains `01.02.2026`,
which is not a key of the nested keyed structure (the structure is keyed
by the raw string `1.2.2026`). -/
theorem claim_C10_counterexample :
    ("01.02.2026") ∈
      (build_maps.load_clean_data
        [CleanRow.mk ("1.2.2026") ("Kyivska") ("UA-32") none none ("")]).1 ∧
    lookupA ("01.02.2026")
      (build_maps.load_clean_data
        [CleanRow.mk ("1.2.2026") ("Kyivska") ("UA-32") none none ("")]).2 =
      none := by
  with_unfolding_all decide

/-- C10 (amended): if every row's stripped date cell is in normalized form
(parse-then-format reproduces it — true of every Writer-produced file),
then every date string in the returned navigable date list is a key of the
returned nested keyed structure. -/
theorem claim_C10 (rows : List CleanRow)
    (hnorm : ∀ r ∈ rows, normalizedDate (pyStrip r.date)) :
    ∀ s ∈ (build_maps.load_clean_data rows).1,
      (lookupA s (build_maps.load_clean_data rows).2).isSome = true := by
  intro s hs
  rw [build_maps.load_clean_data_fst] at hs
  rw [List.mem_map] at hs
  obtain ⟨p, hp, hps⟩ := hs
  have hp2 : p ∈ rows.filterMap build_maps.rowDate :=
    mem_pyDedup.mp ((List.perm_insertionSort PyDate.le _).mem_iff.mp hp)
  rw [List.mem_filterMap] at hp2
  obtain ⟨r0, hr0, hrd⟩ := hp2
  have hparse : strptime_dmy (pyStrip r0.date) = some p :=
    build_maps.rowDate_some hrd
  have hfix : strftime_dmy p = pyStrip r0.date := by
    have hn := hnorm r0 hr0
    unfold normalizedDate at hn
    rw [hparse] at hn
    exact hn
  have hdg : ¬ (pyStrip r0.date = "" ∨ pyStrip r0.gid = "") := by
    unfold build_maps.rowDate at hrd
    intro hcon
    rw [if_pos hcon] at hrd
    exact absurd hrd (by simp)
  rw [not_or] at hdg
  have hkey := build_maps.fold_hasKey hr0 hdg.1 hdg.2 ([], [])
  rw [build_maps.load_clean_data_snd]
  have hs0 : s = pyStrip r0.date := by rw [← hps, hfix]
  rw [hs0]
  unfold build_maps.lookup2 at hkey
  cases hl : lookupA (pyStrip r0.date) (rows.foldl build_maps.loadStep ([], [])).1 with
  | none => rw [hl] at hkey; exact absurd hkey (by simp)
  | some inner => simp

theorem claim_C10_witness :
    (lookupA ("01.02.2026")
      (build_maps.load_clean_data [exCleanRow]).2).isSome = true :=
  claim_C10 [exCleanRow] (by with_unfolding_all decide) ("01.02.2026")
    (by with_unfolding_all decide)

section AssocMemLemmas

variable {K V : Type} [DecidableEq K]

theorem lookupA_mem {k : K} {v : V} :
    ∀ {l : List (K × V)}, lookupA k l = some v → (k, v) ∈ l := by
  intro l
  induction l with
  | nil => intro h; exact absurd h (by simp [lookupA])
  | cons kv t ih =>
    intro h
    obtain ⟨k1, v1⟩ := kv
    unfold lookupA at h
    by_cases hk : k = k1
    · rw [if_pos hk] at h
      injection h with h1
      rw [hk, h1]
      exact List.mem_cons_self _ _
    · rw [if_neg hk] at h
      exact List.mem_cons_of_mem _ (ih h)

theorem mem_insertA {kv : K × V} {k : K} {v : V} :
    ∀ {l : List (K × V)}, kv ∈ insertA k v l → kv = (k, v) ∨ kv ∈ l := by
  intro l
  induction l with
  | nil => intro h; simp [insertA] at h; exact Or.inl h
  | cons kv1 t ih =>
    intro h
    obtain ⟨k1, v1⟩ := kv1
    unfold insertA at h
    by_cases hk : k = k1
    · rw [if_pos hk] at h
      rcases List.mem_cons.mp h with he | hm
      · exact Or.inl he
      · exact Or.inr (List.mem_cons_of_mem _ hm)
    · rw [if_neg hk] at h
      rcases List.mem_cons.mp h with he | hm
      · exact Or.inr (he ▸ List.mem_cons_self _ _)
      · rcases ih hm with he2 | hm2
        · exact Or.inl he2
        · exact Or.inr (List.mem_cons_of_mem _ hm2)

end AssocMemLemmas

/-- Every entry of the loaded region mapping has stripped (strip-fixed)
name and identifier. -/
theorem clean_data.load_region_ids_stripped (region_rows : List RegionRow) :
    ∀ kv ∈ clean_data.load_region_ids region_rows,
      pyStrip kv.1 = kv.1 ∧ pyStrip kv.2 = kv.2 := by
  unfold clean_data.load_region_ids
  have main : ∀ (rows : List RegionRow) (acc : List (String × String)),
      (∀ kv ∈ acc, pyStrip kv.1 = kv.1 ∧ pyStrip kv.2 = kv.2) →
      ∀ kv ∈ rows.foldl
        (fun acc row =>
          if pyStrip row.oblast = "" then acc
          else insertA (pyStrip row.oblast) (pyStrip row.gid) acc) acc,
        pyStrip kv.1 = kv.1 ∧ pyStrip kv.2 = kv.2 := by
    intro rows
    induction rows with
    | nil => intro acc hacc; exact hacc
    | cons row rows ih =>
      intro acc hacc
      rw [List.foldl_cons]
      by_cases he : pyStrip row.oblast = ""
      · rw [if_pos he]; exact ih acc hacc
      · rw [if_neg he]
        apply ih
        intro kv hkv
        rcases mem_insertA hkv with heq | hm
        · rw [heq]
          exact ⟨pyStrip_pyStrip _, pyStrip_pyStrip _⟩
        · exact hacc kv hm
  exact main region_rows [] (by simp)

/-- The date component of a row key is the `strftime` rendering of the
row's parsed (hence valid) date. -/
theorem clean_data.rowKey_some_fst {start : PyDate} {r : RawRow}
    {k : String × String} (h : clean_data.rowKey start r = some k) :
    ∃ p, p.Valid ∧ k.1 = strftime_dmy p := by
  unfold clean_data.rowKey at h
  simp only [] at h
  split at h
  · exact absurd h (by simp)
  · split at h
    · exact absurd h (by simp)
    · split at h
      · exact absurd h (by simp)
      · rename_i d heq hlt
        refine ⟨d, strptime_valid heq, ?_⟩
        injection h with h1
        rw [← h1]

/-- Every date cell the Writer emits is a rendered valid date. -/
theorem clean_data.out_date_strftime {region_rows : List RegionRow}
    {raw_rows : List RawRow} {start : PyDate} {out : List CleanRow}
    (hout : clean_data.main_rows region_rows raw_rows start = some out)
    {r : CleanRow} (hr : r ∈ out) :
    ∃ p, p.Valid ∧ r.date = strftime_dmy p := by
  obtain ⟨dates, hcd, hbody⟩ := clean_data.main_rows_some hout
  obtain ⟨hdts, hall⟩ := clean_data.clean_dates_some hcd
  subst hbody
  rw [List.mem_flatMap] at hr
  obtain ⟨d, hd, hr2⟩ := hr
  rw [List.mem_map] at hr2
  obtain ⟨ob, hob, hr3⟩ := hr2
  have hrd : r.date = d := by rw [← hr3]; rfl
  rw [hdts] at hd
  have hd2 : d ∈ pyDedup ((clean_data.load_raw_data start raw_rows).map
      fun kv => kv.1.1) :=
    (List.perm_insertionSort clean_data.dateKeyLe _).mem_iff.mp hd
  rw [clean_data.ds_eq_validDates] at hd2
  unfold validDates at hd2
  have hd3 := mem_pyDedup.mp hd2
  rw [List.mem_map] at hd3
  obtain ⟨k, hk, hk1⟩ := hd3
  rw [List.mem_filterMap] at hk
  obtain ⟨r0, hr0, hrk⟩ := hk
  obtain ⟨p, hval, hfst⟩ := clean_data.rowKey_some_fst hrk
  exact ⟨p, hval, by rw [hrd, ← hk1, hfst]⟩

/-- The (date, oblast) projection of the written rows has no
duplicates. -/
theorem clean_data.main_rows_proj_nodup {region_rows : List RegionRow}
    {raw_rows : List RawRow} {start : PyDate} {out : List CleanRow}
    (hout : clean_data.main_rows region_rows raw_rows start = some out) :
    (out.map fun r => (r.date, r.oblast)).Nodup := by
  obtain ⟨dates, hcd, hbody⟩ := clean_data.main_rows_some hout
  obtain ⟨hdts, hall⟩ := clean_data.clean_dates_some hcd
  have hproj : out.map (fun r => (r.date, r.oblast)) =
      dates.flatMap fun d =>
        (clean_data.sortedOblasts region_rows).map fun ob => (d, ob) := by
    rw [hbody, List.map_flatMap]
    simp [List.map_map]
    rfl
  rw [hproj]
  apply nodup_pairs
  · rw [hdts]
    exact (List.perm_insertionSort clean_data.dateKeyLe _).nodup_iff.mpr
      (nodup_pyDedup _)
  · exact (List.perm_insertionSort strLe _).nodup_iff.mpr
      (clean_data.nodup_keys_load_region_ids region_rows)

/-- In a duplicate-free list, a predicate that forces its satisfiers to be
a fixed member filters down to exactly that member. -/
theorem filter_eq_singleton {α : Type} {l : List α} {p : α → Bool} {r : α}
    (hnd : l.Nodup) (hr : r ∈ l) (hp : p r = true)
    (huniq : ∀ x ∈ l, p x = true → x = r) : l.filter p = [r] := by
  induction l with
  | nil => exact absurd hr (by simp)
  | cons a t ih =>
    rw [List.nodup_cons] at hnd
    rcases List.mem_cons.mp hr with he | hm
    · subst he
      rw [List.filter_cons_of_pos hp]
      have ht : t.filter p = [] := by
        rw [List.filter_eq_nil_iff]
        intro x hx hpx
        exact hnd.1 ((huniq x (List.mem_cons_of_mem _ hx) hpx) ▸ hx)
      rw [ht]
    · have hpa : ¬ p a = true := by
        intro hpa
        exact hnd.1 ((huniq a (List.mem_cons_self a t) hpa).symm ▸ hm)
      rw [List.filter_cons_of_neg hpa]
      exact ih hnd.2 hm
        (fun x hx hpx => huniq x (List.mem_cons_of_mem _ hx) hpx)

namespace build_maps

/-- Looking up a processed row's own key after the step yields that row's
entry. -/
theorem loadStep_lookup_self
    (acc : List (String × List (String × DayEntry)) × List PyDate)
    (r : CleanRow) (hd : pyStrip r.date ≠ "") (hg : pyStrip r.gid ≠ "") :
    lookup2 (loadStep acc r).1 (pyStrip r.date) (pyStrip r.gid) =
      some ⟨r.scheduled, r.actual, pyStrip r.subqueues⟩ := by
  rw [bm_loadStep_eq, if_neg (by simp [hd, hg])]
  unfold lookup2
  rw [lookupA_updateA_self]
  simp only [Option.some_bind]
  rw [lookupA_insertA_self]

/-- A step leaves every other key's entry unchanged. -/
theorem loadStep_lookup_other
    (acc : List (String × List (String × DayEntry)) × List PyDate)
    (r : CleanRow) {d g : String}
    (hne : ¬ (pyStrip r.date = d ∧ pyStrip r.gid = g)) :
    lookup2 (loadStep acc r).1 d g = lookup2 acc.1 d g := by
  rw [bm_loadStep_eq]
  by_cases hskip : pyStrip r.date = "" ∨ pyStrip r.gid = ""
  · rw [if_pos hskip]
  · rw [if_neg hskip]
    simp only
    by_cases hd : pyStrip r.date = d
    · have hg : ¬ pyStrip r.gid = g := fun hg => hne ⟨hd, hg⟩
      unfold lookup2
      rw [← hd, lookupA_updateA_self]
      simp only [Option.some_bind]
      rw [lookupA_insertA_ne (fun h => hg h.symm)]
      cases hl : lookupA (pyStrip r.date) acc.1 with
      | none => rfl
      | some inner => rfl
    · unfold lookup2
      rw [lookupA_updateA_ne (fun h => hd h.symm)]

/-- The loader's "last row wins" lookup characterisation. -/
theorem fold_lookup_last (rows : List CleanRow) {d g : String}
    (hd : d ≠ "") (hg : g ≠ "")
    (init : List (String × List (String × DayEntry)) × List PyDate) :
    lookup2 (rows.foldl loadStep init).1 d g =
      match (rows.filter fun r =>
          pyStrip r.date = d ∧ pyStrip r.gid = g).getLast? with
      | some r => some ⟨r.scheduled, r.actual, pyStrip r.subqueues⟩
      | none => lookup2 init.1 d g := by
  induction rows generalizing init with
  | nil => simp
  | cons r rows ih =>
    rw [List.foldl_cons, List.filter_cons]
    by_cases hm : pyStrip r.date = d ∧ pyStrip r.gid = g
    · rw [if_pos (by simp [hm])]
      rw [ih]
      cases hfl : (rows.filter fun r =>
          pyStrip r.date = d ∧ pyStrip r.gid = g).getLast? with
      | some r2 =>
        rw [List.getLast?_cons, hfl]
        rfl
      | none =>
        rw [List.getLast?_cons, hfl]
        simp only [Option.getD_none]
        obtain ⟨hm1, hm2⟩ := hm
        rw [← hm1, ← hm2]
        exact loadStep_lookup_self init r (by rw [hm1]; exact hd)
          (by rw [hm2]; exact hg)
    · rw [if_neg (by simp [hm])]
      rw [ih, loadStep_lookup_other init r hm]

end build_maps

/-- C3: feeding the Writer's output into the Map Data Loader reconstructs,
for every written row whose region identifier is non-empty, a day-data
entry whose scheduled and actual values equal the written averages
(assuming the region mapping does not assign one non-empty identifier to
two different region names, which is what makes the identifier identify
the pair). -/
theorem claim_C3 (region_rows : List RegionRow) (raw_rows : List RawRow)
    (start : PyDate) (out : List CleanRow)
    (hout : clean_data.main_rows region_rows raw_rows start = some out)
    (hinj : ∀ p ∈ clean_data.load_region_ids region_rows,
      ∀ q ∈ clean_data.load_region_ids region_rows,
        p.2 = q.2 → p.2 ≠ "" → p.1 = q.1)
    (r : CleanRow) (hr : r ∈ out) (hgid : r.gid ≠ "") :
    ∃ e, build_maps.lookup2 (build_maps.load_clean_data out).2 r.date r.gid =
      some e ∧ e.scheduled = r.scheduled ∧ e.actual = r.actual := by
  obtain ⟨p, hval, hdate⟩ := clean_data.out_date_strftime hout hr
  have hdstrip : pyStrip r.date = r.date := by
    rw [hdate]
    exact pyStrip_strftime p
  have hdne : r.date ≠ "" := by
    rw [hdate]
    exact strftime_ne_empty p
  have hrr := clean_data.mem_main_rows hout hr
  have hgidlook : lookupA r.oblast (clean_data.load_region_ids region_rows) =
      some r.gid ∧ pyStrip r.gid = r.gid := by
    have h1 := congrArg CleanRow.gid hrr
    rw [clean_data.makeRow_gid] at h1
    cases hl : lookupA r.oblast (clean_data.load_region_ids region_rows) with
    | none =>
      rw [hl] at h1
      simp at h1
      exact absurd h1 hgid
    | some v =>
      rw [hl] at h1
      simp at h1
      refine ⟨by rw [h1], ?_⟩
      rw [h1]
      exact (clean_data.load_region_ids_stripped region_rows (r.oblast, v)
        (lookupA_mem hl)).2
  have hnd := clean_data.main_rows_proj_nodup hout
  have houtnd : out.Nodup := List.Nodup.of_map _ hnd
  have huniq : ∀ x ∈ out,
      (decide (pyStrip x.date = r.date ∧ pyStrip x.gid = r.gid)) = true →
      x = r := by
    intro x hx hpx
    rw [decide_eq_true_eq] at hpx
    obtain ⟨hpx1, hpx2⟩ := hpx
    obtain ⟨px, hvalx, hdatex⟩ := clean_data.out_date_strftime hout hx
    have hdx : x.date = r.date := by
      rw [← hpx1, hdatex, pyStrip_strftime]
    have hrrx := clean_data.mem_main_rows hout hx
    have h1 := congrArg CleanRow.gid hrrx
    rw [clean_data.makeRow_gid] at h1
    have hgx : x.gid = r.gid ∧
        lookupA x.oblast (clean_data.load_region_ids region_rows) =
          some x.gid := by
      cases hl : lookupA x.oblast (clean_data.load_region_ids region_rows) with
      | none =>
        rw [hl] at h1
        simp at h1
        rw [h1] at hpx2
        have : r.gid = "" := by
          rw [← hpx2]
          rfl
        exact absurd this hgid
      | some vx =>
        rw [hl] at h1
        simp at h1
        have hstrip := (clean_data.load_region_ids_stripped region_rows
          (x.oblast, vx) (lookupA_mem hl)).2
        constructor
        · rw [← hpx2, h1, hstrip]
        · rw [h1]
    have hob : x.oblast = r.oblast := by
      apply hinj (x.oblast, x.gid) (lookupA_mem hgx.2)
        (r.oblast, r.gid) (lookupA_mem hgidlook.1)
      · exact hgx.1
      · rw [hgx.1]
        exact hgid
    exact List.inj_on_of_nodup_map hnd hx hr (by rw [hdx, hob])
  have hpr : (decide (pyStrip r.date = r.date ∧ pyStrip r.gid = r.gid)) =
      true := by
    rw [decide_eq_true_eq]
    exact ⟨hdstrip, hgidlook.2⟩
  have hfil : (out.filter fun x =>
      pyStrip x.date = r.date ∧ pyStrip x.gid = r.gid) = [r] :=
    filter_eq_singleton houtnd hr hpr huniq
  have hmain := build_maps.fold_lookup_last out hdne hgid ([], [])
  rw [hfil] at hmain
  simp only [List.getLast?_singleton] at hmain
  refine ⟨⟨r.scheduled, r.actual, pyStrip r.subqueues⟩, ?_, rfl, rfl⟩
  rw [build_maps.load_clean_data_snd]
  exact hmain

theorem claim_C3_witness :
    ∃ e, build_maps.lookup2 (build_maps.load_clean_data exOut).2
      exCleanRow.date exCleanRow.gid = some e ∧
      e.scheduled = exCleanRow.scheduled ∧ e.actual = exCleanRow.actual :=
  claim_C3 exRegionRows exRawRows exStart exOut (by with_unfolding_all decide)
    (by with_unfolding_all decide) exCleanRow (by with_unfolding_all decide)
    (by with_unfolding_all decide)

section StrOrderLemmas

theorem charsLe_total : ∀ a b : List Char, charsLe a b = true ∨ charsLe b a = true := by
  intro a
  induction a with
  | nil => intro b; left; rfl
  | cons x xs ih =>
    intro b
    cases b with
    | nil => right; rfl
    | cons y ys =>
      unfold charsLe
      by_cases hxy : x = y
      · rw [if_pos hxy, if_pos hxy.symm]
        exact ih ys
      · rw [if_neg hxy, if_neg (fun h => hxy h.symm)]
        have hne : x.toNat ≠ y.toNat := fun h => hxy (charToNat_inj h)
        rcases Nat.lt_or_ge x.toNat y.toNat with h | h
        · left; exact decide_eq_true h
        · right; exact decide_eq_true (by omega)

theorem charsLe_trans :
    ∀ a b c : List Char, charsLe a b = true → charsLe b c = true →
      charsLe a c = true := by
  intro a
  induction a with
  | nil => intro b c h1 h2; rfl
  | cons x xs ih =>
    intro b c h1 h2
    cases b with
    | nil => exact absurd h1 (by simp [charsLe])
    | cons y ys =>
      cases c with
      | nil => exact absurd h2 (by simp [charsLe])
      | cons z zs =>
        unfold charsLe at h1 h2 ⊢
        by_cases hxy : x = y
        · rw [if_pos hxy] at h1
          by_cases hyz : y = z
          · rw [if_pos hyz] at h2
            rw [if_pos (hxy.trans hyz)]
            exact ih ys zs h1 h2
          · rw [if_neg hyz] at h2
            have hxz : ¬ x = z := fun h => hyz (hxy ▸ h)
            rw [if_neg hxz]
            rw [decide_eq_true_eq] at h2 ⊢
            rw [hxy]
            exact h2
        · rw [if_neg hxy] at h1
          rw [decide_eq_true_eq] at h1
          by_cases hyz : y = z
          · have hxz : ¬ x = z := fun h => hxy (h.trans hyz.symm)
            rw [if_neg hxz, decide_eq_true_eq, ← hyz]
            exact h1
          · rw [if_neg hyz, decide_eq_true_eq] at h2
            have hxz : ¬ x = z := by
              intro h
              rw [h] at h1
              omega
            rw [if_neg hxz, decide_eq_true_eq]
            omega

instance : IsTotal String strLe :=
  ⟨fun a b => charsLe_total a.data b.data⟩

instance : IsTrans String strLe :=
  ⟨fun a b c h1 h2 => charsLe_trans a.data b.data c.data h1 h2⟩

end StrOrderLemmas

theorem PyDate.ltB_of_le_ne {a b : PyDate} (h1 : PyDate.le a b)
    (h2 : a ≠ b) : PyDate.ltB a b = true := by
  obtain ⟨da, ma, ya⟩ := a
  obtain ⟨db, mb, yb⟩ := b
  unfold PyDate.le at h1
  unfold PyDate.ltB
  have h3 : ¬ (da = db ∧ ma = mb ∧ ya = yb) := fun hc =>
    h2 (by rw [hc.1, hc.2.1, hc.2.2])
  simp only [Bool.or_eq_true, Bool.and_eq_true, decide_eq_true_eq]
  dsimp only at h1 ⊢
  omega

/-- Every valid filtered date string is the rendering of a valid date, and
parses back to it. -/
theorem validDates_strftime {start : PyDate} {raws : List RawRow} {d : String}
    (hd : d ∈ validDates start raws) :
    ∃ p, p.Valid ∧ d = strftime_dmy p ∧ strptime_dmy d = some p := by
  unfold validDates at hd
  have hd2 := mem_pyDedup.mp hd
  rw [List.mem_map] at hd2
  obtain ⟨k, hk, hk1⟩ := hd2
  rw [List.mem_filterMap] at hk
  obtain ⟨r0, hr0, hrk⟩ := hk
  obtain ⟨p, hval, hfst⟩ := clean_data.rowKey_some_fst hrk
  refine ⟨p, hval, by rw [← hk1, hfst], ?_⟩
  rw [← hk1, hfst]
  exact strptime_strftime hval

/-- C8: the written data rows are ordered by ascending calendar date
(compared on the parsed dates, not the date strings) and, within one date,
by ascending region name in code-point lexicographic order. -/
theorem claim_C8 (region_rows : List RegionRow) (raw_rows : List RawRow)
    (start : PyDate) (out : List CleanRow)
    (hout : clean_data.main_rows region_rows raw_rows start = some out) :
    List.Pairwise rowOrdered out := by
  obtain ⟨dates, hcd, hbody⟩ := clean_data.main_rows_some hout
  obtain ⟨hdts, hall⟩ := clean_data.clean_dates_some hcd
  have hdmem : ∀ d ∈ dates,
      ∃ p, p.Valid ∧ d = strftime_dmy p ∧ strptime_dmy d = some p := by
    intro d hd
    rw [hdts] at hd
    have hd2 := (List.perm_insertionSort clean_data.dateKeyLe _).mem_iff.mp hd
    rw [clean_data.ds_eq_validDates] at hd2
    exact validDates_strftime hd2
  have hsorted : List.Pairwise clean_data.dateKeyLe dates := by
    rw [hdts]
    exact List.sorted_insertionSort _ _
  have hnodup : dates.Nodup := by
    rw [hdts]
    exact (List.perm_insertionSort _ _).nodup_iff.mpr (nodup_pyDedup _)
  have hcal : List.Pairwise calendarBefore dates := by
    apply List.Pairwise.imp_of_mem ?_ (hsorted.and hnodup)
    intro d1 d2 h1m h2m hcomb
    obtain ⟨hle, hne⟩ := hcomb
    obtain ⟨p1, hv1, hs1, hp1⟩ := hdmem d1 h1m
    obtain ⟨p2, hv2, hs2, hp2⟩ := hdmem d2 h2m
    refine ⟨p1, p2, hp1, hp2, ?_⟩
    apply PyDate.ltB_of_le_ne
    · unfold clean_data.dateKeyLe at hle
      rw [hp1, hp2] at hle
      simpa using hle
    · intro he
      apply hne
      rw [hs1, hs2, he]
  have hobl : List.Pairwise strLe (clean_data.sortedOblasts region_rows) :=
    List.sorted_insertionSort _ _
  rw [hbody, List.flatMap_def, List.pairwise_flatten]
  constructor
  · intro l hl
    rw [List.mem_map] at hl
    obtain ⟨d, hd, hld⟩ := hl
    subst hld
    rw [List.pairwise_map]
    exact List.Pairwise.imp (fun h => Or.inr ⟨rfl, h⟩) hobl
  · rw [List.pairwise_map]
    apply List.Pairwise.imp ?_ hcal
    intro d1 d2 hcb x hx y hy
    rw [List.mem_map] at hx hy
    obtain ⟨o1, ho1, hx1⟩ := hx
    obtain ⟨o2, ho2, hy1⟩ := hy
    subst hx1
    subst hy1
    exact Or.inl hcb

/-- Two regions and two dates whose calendar order (2 Jan before 1 Feb)
is the reverse of their string order. -/
def exRegionRows2 : List RegionRow := [⟨"Lviv", "UA-46"⟩, ⟨"Kyiv", "UA-30"⟩]

def exRawRows2 : List RawRow :=
  [⟨"01.02.2026", "Kyiv", "", "4", ""⟩, ⟨"02.01.2026", "Lviv", "q1", "2", "3"⟩]

def exOut2 : List CleanRow :=
  [⟨"02.01.2026", "Kyiv", "UA-30", none, none, ""⟩,
   ⟨"02.01.2026", "Lviv", "UA-46", some 2, some 3, "q1"⟩,
   ⟨"01.02.2026", "Kyiv", "UA-30", some 4, none, ""⟩,
   ⟨"01.02.2026", "Lviv", "UA-46", none, none, ""⟩]

theorem claim_C8_witness : List.Pairwise rowOrdered exOut2 :=
  claim_C8 exRegionRows2 exRawRows2 ⟨1, 1, 2026⟩ exOut2
    (by with_unfolding_all decide)

/-- A region mapping that assigns the same identifier to two names, and
one report for each name on the same date. -/
def exDupRegionRows : List RegionRow := [⟨"Aaa", "X1"⟩, ⟨"Bbb", "X1"⟩]

def exDupRawRows : List RawRow :=
  [⟨"01.02.2026", "Aaa", "", "1", ""⟩, ⟨"01.02.2026", "Bbb", "", "2", ""⟩]

def exDupOut : List CleanRow :=
  [⟨"01.02.2026", "Aaa", "X1", some 1, none, ""⟩,
   ⟨"01.02.2026", "Bbb", "X1", some 2, none, ""⟩]

/-- C3 counterexample: when two region names share one non-empty
identifier, the written file holds two rows for the (date, identifier)
pair and the loader keeps only the last, so the reconstructed value does
not equal the written average of the first row (2 ≠ 1). -/
theorem claim_C3_counterexample :
    clean_data.main_rows exDupRegionRows exDupRawRows exStart =
      some exDupOut ∧
    (⟨"01.02.2026", "Aaa", "X1", some 1, none, ""⟩ : CleanRow) ∈ exDupOut ∧
    build_maps.lookup2 (build_maps.load_clean_data exDupOut).2
      ("01.02.2026") ("X1") = some ⟨some 2, none, ""⟩ ∧
    (some (2 : ℚ) : Option ℚ) ≠ some (1 : ℚ) := by
  with_unfolding_all decide
